import Mathlib

/-!
# dui — verification of the interaction core and value codec

Shallow embedding of the `dui` terminal client for DynamoDB Local:
the type-hinted value codec (`JSONToItem` / `ItemToJSON` and friends),
the paginated backend loops (`Scan`, `ListTables`), and the
Elm-style interaction state machine (`Model`, `Update`, `handleKeyPress`,
`executeCommand`, the editor workflow).

Modelling conventions:
* Go `map[string]X` values are represented as association lists
  `List (String × X)`; Go maps are unordered, so list order is a choice of
  representative and all statements made here are order-preserving
  refinements of the map-level behaviour.
* Go byte slices are `List Nat` (byte values).
* Go `float64` values produced by `json.Unmarshal` are represented by the
  numeric token text they were parsed from (`GoVal.float`).  Go's
  reformatting of a number through `float64` (`fmt.Sprintf("%v", f)`) is
  not modelled bit-exactly: the token is carried through unchanged.  No
  theorem below traverses this case — every round-trip statement is
  restricted to number-free values precisely because the real code sends
  numbers through `float64`.
-/

namespace Dui

/-! ## Go / generic-JSON values

`GoVal` is the universe of Go `any` values that occur in the codec:
the results of `json.Unmarshal` (str/float/bool/nil/arr/obj) together
with the extra runtime types the codec itself introduces
(`json.Number`, `[]string`, `[]byte`, `[][]byte`). -/

inductive GoVal where
  | str (s : String)
  | jnum (s : String)
  | float (tok : String)
  | bool (b : Bool)
  | nil
  | arr (xs : List GoVal)
  | obj (kvs : List (String × GoVal))
  | strList (xs : List String)
  | bytes (bs : List Nat)
  | bytesList (bs : List (List Nat))
deriving Repr

/-- DynamoDB attribute values (`types.AttributeValue`): the closed
TypedValue variant of the data model. -/
inductive AttrValue where
  | S (s : String)
  | N (s : String)
  | BOOL (b : Bool)
  | NULL
  | L (xs : List AttrValue)
  | M (kvs : List (String × AttrValue))
  | SS (xs : List String)
  | NS (xs : List String)
  | B (bs : List Nat)
  | BS (bs : List (List Nat))
deriving Repr

/-- A DynamoDB item (`map[string]types.AttributeValue`). -/
abbrev Item := List (String × AttrValue)

/-! ## String helpers (Go `strings` / `fmt` primitives)

Implemented over `List Char` so that concrete instances reduce by
`decide`.  Go's `strings.ToUpper`/`ToLower` agree with `Char.toUpper`/
`Char.toLower` on the ASCII hint and keyword strings they are applied to. -/

/-- `strings.ToUpper`. -/
def goToUpper (s : String) : String := ⟨s.toList.map Char.toUpper⟩

/-- `strings.ToLower`. -/
def goToLower (s : String) : String := ⟨s.toList.map Char.toLower⟩

/-- The type-hint test of `processTypeHints`:
`strings.LastIndex(key, "<") != -1 && strings.HasSuffix(key, ">")`. -/
def hasHintShape (k : String) : Bool :=
  k.toList.contains '<' && (k.toList.getLast? == some '>')

/-- Split a hint-shaped key at the last `<`: returns `key[:idx]`
(the clean key) and `key[idx+1:]` (the raw hint text, still carrying the
closing `>`). -/
def hintSplit (k : String) : String × String :=
  let r := k.toList.reverse
  (⟨((r.dropWhile (· ≠ '<')).drop 1).reverse⟩, ⟨(r.takeWhile (· ≠ '<')).reverse⟩)

/-- `strings.TrimSuffix(s, ">")`. -/
def trimSuffixGt (s : String) : String :=
  if s.toList.getLast? == some '>' then ⟨s.toList.dropLast⟩ else s

/-- UTF-8 encoding of one scalar value. -/
def utf8EncodeChar (c : Char) : List Nat :=
  let n := c.toNat
  if n < 128 then [n]
  else if n < 2048 then [192 + n / 64, 128 + n % 64]
  else if n < 65536 then [224 + n / 4096, 128 + n / 64 % 64, 128 + n % 64]
  else [240 + n / 262144, 128 + n / 4096 % 64, 128 + n / 64 % 64, 128 + n % 64]

/-- `[]byte(s)`: the UTF-8 bytes of a Go string. -/
def utf8Bytes (s : String) : List Nat := (s.toList.map utf8EncodeChar).flatten

/-- Standard base64 alphabet (what `encoding/json` uses for `[]byte`). -/
def base64Alphabet : List Char :=
  "ABCDEFGHIJKLMNOPQRSTUVWXYZabcdefghijklmnopqrstuvwxyz0123456789+/".toList

def base64Char (n : Nat) : Char := base64Alphabet.getD n 'A'

/-- Base64 encoding with padding, as `json.Marshal` applies to `[]byte`. -/
def base64Encode : List Nat → String
  | [] => ""
  | [a] =>
    ⟨[base64Char (a / 4), base64Char (a % 4 * 16), '=', '=']⟩
  | [a, b] =>
    ⟨[base64Char (a / 4), base64Char (a % 4 * 16 + b / 16), base64Char (b % 16 * 4), '=']⟩
  | a :: b :: c :: rest =>
    (⟨[base64Char (a / 4), base64Char (a % 4 * 16 + b / 16),
       base64Char (b % 16 * 4 + c / 64), base64Char (c % 64)]⟩ : String)
      ++ base64Encode rest

/-! ## `fmt.Sprintf("%v", value)` on the values the codec handles

* strings and `json.Number` print verbatim
* `float64` prints through `%g`; as explained in the header the numeric
  token is carried through unchanged instead
* slices print as `[elem elem ...]`, byte slices as decimal byte lists
* maps print as `map[k:v ...]` with keys sorted
* a nil interface prints as `<nil>` -/

/-- Insertion by key, for the sorted-key map rendering of `fmt`. -/
def insertByKey (e : String × String) : List (String × String) → List (String × String)
  | [] => [e]
  | x :: xs => if e.1 ≤ x.1 then e :: x :: xs else x :: insertByKey e xs

/-- Sort formatted map entries by key (Go `fmt` prints map keys sorted;
keys of a Go map are unique, so stability is irrelevant). -/
def sortByKey (es : List (String × String)) : List (String × String) :=
  es.foldr insertByKey []

/-- `fmt.Sprintf("%v", n)` on a byte value. -/
def natDigits (n : Nat) : String := toString n

mutual

def govFormat : GoVal → String
  | .str s => s
  | .jnum s => s
  | .float tok => tok
  | .bool b => if b then "true" else "false"
  | .nil => "<nil>"
  | .arr xs => "[" ++ " ".intercalate (govFormatList xs) ++ "]"
  | .obj kvs =>
    "map[" ++
      " ".intercalate ((sortByKey (govFormatKVs kvs)).map (fun e => e.1 ++ ":" ++ e.2)) ++ "]"
  | .strList xs => "[" ++ " ".intercalate xs ++ "]"
  | .bytes bs => "[" ++ " ".intercalate (bs.map natDigits) ++ "]"
  | .bytesList bss =>
    "[" ++ " ".intercalate
      (bss.map (fun bs => "[" ++ " ".intercalate (bs.map natDigits) ++ "]")) ++ "]"

def govFormatList : List GoVal → List String
  | [] => []
  | v :: vs => govFormat v :: govFormatList vs

def govFormatKVs : List (String × GoVal) → List (String × String)
  | [] => []
  | (k, v) :: rest => (k, govFormat v) :: govFormatKVs rest

end

/-! ## Encoding: `attrToInterface` (part_003 lines 461–490)

`ItemToJSON` / `ItemToPrettyJSON` first simplify the item with
`attrToInterface`, then `json.Marshal` it.  `attrToInterface` maps each
`AttributeValue` member to the Go value the switch returns: sets stay as
their member `[]string` / `[][]byte`, binary stays `[]byte`, numbers
become `json.Number`. -/

mutual

def attrToInterface : AttrValue → GoVal
  | .S s => .str s
  | .N s => .jnum s
  | .BOOL b => .bool b
  | .NULL => .nil
  | .L xs => .arr (attrToInterfaceList xs)
  | .M kvs => .obj (attributeValueToInterface kvs)
  | .SS xs => .strList xs
  | .NS xs => .strList xs
  | .B bs => .bytes bs
  | .BS bss => .bytesList bss

def attrToInterfaceList : List AttrValue → List GoVal
  | [] => []
  | v :: vs => attrToInterface v :: attrToInterfaceList vs

/-- `attributeValueToInterface` (part_003 lines 453–459). -/
def attributeValueToInterface : List (String × AttrValue) → List (String × GoVal)
  | [] => []
  | (k, v) :: rest => (k, attrToInterface v) :: attributeValueToInterface rest

end

/-! ## `json.Marshal` followed by `json.Unmarshal` into generic values

`remarshal` is the composite effect, on the Go value tree, of printing a
value as JSON text and re-reading that text into `map[string]any` /
`[]any` / `string` / `float64` / `bool` / `nil`:

* `json.Number` (and `float64`) tokens come back as `float64`
  (`GoVal.float` carries the token, see the header note);
* `[]string` comes back as a generic array of strings;
* `[]byte` comes back as its base64 string;
* object key order is irrelevant at the map abstraction and is kept. -/

mutual

def remarshal : GoVal → GoVal
  | .str s => .str s
  | .jnum s => .float s
  | .float tok => .float tok
  | .bool b => .bool b
  | .nil => .nil
  | .arr xs => .arr (remarshalList xs)
  | .obj kvs => .obj (remarshalKVs kvs)
  | .strList xs => .arr (xs.map GoVal.str)
  | .bytes bs => .str (base64Encode bs)
  | .bytesList bss => .arr (bss.map (fun bs => GoVal.str (base64Encode bs)))

def remarshalList : List GoVal → List GoVal
  | [] => []
  | v :: vs => remarshal v :: remarshalList vs

def remarshalKVs : List (String × GoVal) → List (String × GoVal)
  | [] => []
  | (k, v) :: rest => (k, remarshal v) :: remarshalKVs rest

end

/-! ## Decoding output side: `valueToAttr` / `interfaceToAttributeValue`
(part_003 lines 492–544) -/

/-- Go map lookup on the association-list representation (keys of a Go
map are unique, so first match is the lookup). -/
def goLookup (kvs : List (String × GoVal)) (k : String) : Option GoVal :=
  (kvs.find? (fun p => p.1 == k)).map (·.2)

/-- The `%v` formatting Go applies to a `float64` before storing it in a
`Number` attribute.  Carried as the identity on the token text; bit-exact
`float64` re-formatting is not modelled and no theorem below depends on
this case (see the header note). -/
def floatFmt (tok : String) : String := tok

mutual

def valueToAttr : GoVal → AttrValue
  | .str s => .S s
  | .jnum s => .N s
  | .float tok => .N (floatFmt tok)
  | .bool b => .BOOL b
  | .nil => .NULL
  | .bytes bs => .B bs
  | .arr xs => .L (valueToAttrList xs)
  | .obj kvs =>
    -- special set markers introduced by the SS/NS/BS hint conversions;
    -- the type assertions require the exact runtime types []string / [][]byte
    match goLookup kvs "__SS" with
    | some (.strList ss) => .SS ss
    | _ =>
      match goLookup kvs "__NS" with
      | some (.strList ns) => .NS ns
      | _ =>
        match goLookup kvs "__BS" with
        | some (.bytesList bss) => .BS bss
        | _ => .M (interfaceToAttributeValue kvs)
  | .strList xs => .S (govFormat (.strList xs))
  | .bytesList bss => .S (govFormat (.bytesList bss))

def valueToAttrList : List GoVal → List AttrValue
  | [] => []
  | v :: vs => valueToAttr v :: valueToAttrList vs

/-- `interfaceToAttributeValue` (part_003 lines 492–498). -/
def interfaceToAttributeValue : List (String × GoVal) → Item
  | [] => []
  | (k, v) :: rest => (k, valueToAttr v) :: interfaceToAttributeValue rest

end

/-! ## A generic JSON parser (`json.Unmarshal` into `any`)

The string branches of `convertValueWithTypeHint` re-parse an embedded
string as a JSON array or object.  The parser below follows the JSON
grammar (`encoding/json` semantics: numbers come back as `float64`,
objects as `map[string]any`); it is fuel-structural so concrete runs
reduce.  Surrogate-pair `\u` escapes are decoded as two separate code
units, a corner no theorem depends on. -/

def jsonWs (c : Char) : Bool := c = ' ' || c = '\t' || c = '\n' || c = '\r'

def skipWs : List Char → List Char
  | c :: cs => if jsonWs c then skipWs cs else c :: cs
  | [] => []

def hexVal (c : Char) : Option Nat :=
  if '0' ≤ c ∧ c ≤ '9' then some (c.toNat - '0'.toNat)
  else if 'a' ≤ c ∧ c ≤ 'f' then some (c.toNat - 'a'.toNat + 10)
  else if 'A' ≤ c ∧ c ≤ 'F' then some (c.toNat - 'A'.toNat + 10)
  else none

/-- Parse the body of a JSON string after the opening quote; returns the
decoded characters and the input after the closing quote. -/
def parseStringBody (fuel : Nat) (cs : List Char) : Option (List Char × List Char) :=
  match fuel, cs with
  | 0, _ => none
  | _, [] => none
  | fuel + 1, c :: cs =>
    if c = '"' then some ([], cs)
    else if c = '\\' then
      match cs with
      | [] => none
      | e :: cs =>
        if e = 'u' then
          match cs with
          | h1 :: h2 :: h3 :: h4 :: cs =>
            match hexVal h1, hexVal h2, hexVal h3, hexVal h4 with
            | some a, some b, some c', some d =>
              (parseStringBody fuel cs).map
                (fun r => (Char.ofNat (a * 4096 + b * 256 + c' * 16 + d) :: r.1, r.2))
            | _, _, _, _ => none
          | _ => none
        else
          let dec : Option Char :=
            if e = '"' then some '"'
            else if e = '\\' then some '\\'
            else if e = '/' then some '/'
            else if e = 'n' then some '\n'
            else if e = 't' then some '\t'
            else if e = 'r' then some '\r'
            else if e = 'b' then some (Char.ofNat 8)
            else if e = 'f' then some (Char.ofNat 12)
            else none
          match dec with
          | some d => (parseStringBody fuel cs).map (fun r => (d :: r.1, r.2))
          | none => none
    else (parseStringBody fuel cs).map (fun r => (c :: r.1, r.2))

def isDigit (c : Char) : Bool := '0' ≤ c && c ≤ '9'

/-- Scan a JSON number token (`-?int(.frac)?([eE][+-]?digits)?`); returns
the token text and the rest. -/
def scanNumber (cs : List Char) : Option (List Char × List Char) :=
  let (sign, cs1) :=
    match cs with
    | '-' :: rest => (['-'], rest)
    | _ => (([] : List Char), cs)
  let intPart := cs1.takeWhile isDigit
  let cs2 := cs1.drop intPart.length
  if intPart = [] then none
  else if intPart.length > 1 ∧ intPart.headD '0' = '0' then none
  else
    let (frac, cs3) :=
      match cs2 with
      | '.' :: rest =>
        let ds := rest.takeWhile isDigit
        if ds = [] then (([] : List Char), cs2)
        else ('.' :: ds, rest.drop ds.length)
      | _ => (([] : List Char), cs2)
    if cs2 ≠ [] ∧ cs2.headD ' ' = '.' ∧ frac = [] then none
    else
      let (ex, cs4) :=
        match cs3 with
        | e :: rest =>
          if e = 'e' ∨ e = 'E' then
            let (es, rest2) :=
              match rest with
              | s :: r2 => if s = '+' ∨ s = '-' then ([e, s], r2) else ([e], rest)
              | [] => ([e], rest)
            let ds := rest2.takeWhile isDigit
            if ds = [] then (([] : List Char), (none : Option (List Char)))
            else (es ++ ds, some (rest2.drop ds.length))
          else (([] : List Char), some cs3)
        | [] => (([] : List Char), some cs3)
      match cs4 with
      | none => none
      | some rest => some (sign ++ intPart ++ frac ++ ex, rest)

mutual

def parseJsonVal (fuel : Nat) (cs : List Char) : Option (GoVal × List Char) :=
  match fuel with
  | 0 => none
  | fuel + 1 =>
    match skipWs cs with
    | [] => none
    | c :: cs' =>
      if c = '"' then
        (parseStringBody (cs'.length + 1) cs').map (fun r => (.str ⟨r.1⟩, r.2))
      else if c = '[' then
        match skipWs cs' with
        | ']' :: rest => some (.arr [], rest)
        | _ => (parseJsonElems fuel cs').map (fun r => (.arr r.1, r.2))
      else if c = '{' then
        match skipWs cs' with
        | '}' :: rest => some (.obj [], rest)
        | _ => (parseJsonMembers fuel cs').map (fun r => (.obj r.1, r.2))
      else if c = 't' then
        match cs' with
        | 'r' :: 'u' :: 'e' :: rest => some (.bool true, rest)
        | _ => none
      else if c = 'f' then
        match cs' with
        | 'a' :: 'l' :: 's' :: 'e' :: rest => some (.bool false, rest)
        | _ => none
      else if c = 'n' then
        match cs' with
        | 'u' :: 'l' :: 'l' :: rest => some (.nil, rest)
        | _ => none
      else
        (scanNumber (c :: cs')).map (fun r => (.float ⟨r.1⟩, r.2))

/-- Elements of an array after the opening `[` (non-empty case). -/
def parseJsonElems (fuel : Nat) (cs : List Char) : Option (List GoVal × List Char) :=
  match fuel with
  | 0 => none
  | fuel + 1 =>
    match parseJsonVal fuel cs with
    | none => none
    | some (v, rest) =>
      match skipWs rest with
      | ',' :: rest2 =>
        (parseJsonElems fuel rest2).map (fun r => (v :: r.1, r.2))
      | ']' :: rest2 => some ([v], rest2)
      | _ => none

/-- Members of an object after the opening `{` (non-empty case). -/
def parseJsonMembers (fuel : Nat) (cs : List Char) :
    Option (List (String × GoVal) × List Char) :=
  match fuel with
  | 0 => none
  | fuel + 1 =>
    match skipWs cs with
    | '"' :: cs' =>
      match parseStringBody (cs'.length + 1) cs' with
      | none => none
      | some (key, rest) =>
        match skipWs rest with
        | ':' :: rest2 =>
          match parseJsonVal fuel rest2 with
          | none => none
          | some (v, rest3) =>
            match skipWs rest3 with
            | ',' :: rest4 =>
              (parseJsonMembers fuel rest4).map (fun r => ((⟨key⟩, v) :: r.1, r.2))
            | '}' :: rest4 => some ([(⟨key⟩, v)], rest4)
            | _ => none
        | _ => none
    | _ => none

end

/-- Coerce `parseJsonElems` results where `parseJsonVal` returned an
array, wrap the rest. -/
def parseTopJson (s : String) : Option GoVal :=
  match parseJsonVal (s.length + 1) s.toList with
  | none => none
  | some (v, rest) => if skipWs rest = [] then some v else none

/-- `json.Unmarshal([]byte(s), &list)` for `list : []any`: succeeds iff
`s` is a JSON text whose top-level value is an array. -/
def goUnmarshalArr (s : String) : Option (List GoVal) :=
  match parseTopJson s with
  | some (.arr xs) => some xs
  | _ => none

/-- `json.Unmarshal([]byte(s), &m)` for `m : map[string]any`: succeeds
iff `s` is a JSON text whose top-level value is an object. -/
def goUnmarshalObj (s : String) : Option (List (String × GoVal)) :=
  match parseTopJson s with
  | some (.obj kvs) => some kvs
  | _ => none

/-! ## Type-hint processing (part_003 lines 256–451)

`processTypeHints` walks the attribute entries, strips a trailing
`<TYPE>` hint from each key that has one and converts that entry's value
under the hint's rules via `convertValueWithTypeHint`; entries without a
hint are kept untouched.  The two functions recurse into each other
through the `M` hint.

The Go original has no depth bound; the `M`-hint-over-a-string case
parses fresh structure out of a string, which no structural measure on
the input covers, so the Lean embedding carries a fuel parameter that
each recursive step consumes (keeping the definitions kernel-computable).
Any fuel larger than the total size of the input (plus the structure
parsed out of its embedded strings) is sufficient; every theorem below
either holds for all fuel values or is stated at an explicitly
sufficient one.  Fuel exhaustion surfaces as the (otherwise unused)
error text `"recursion limit exceeded"`. -/

/-- The BS-hint member coercion: `item.([]byte)` succeeds only for a
genuine byte slice, anything else goes through `%v`. -/
def bsMember (v : GoVal) : List Nat :=
  match v with
  | .bytes b => b
  | _ => utf8Bytes (govFormat v)

mutual

/-- `convertValueWithTypeHint` (part_003 lines 284–451). -/
def convertValueWithTypeHint (fuel : Nat) (value : GoVal) (typeHint : String) :
    Except String GoVal :=
  match fuel with
  | 0 => .error "recursion limit exceeded"
  | fuel + 1 =>
  if goToUpper typeHint = "S" then .ok (.str (govFormat value))
  else if goToUpper typeHint = "N" then
    -- keep as json.Number or numeric type; a string is cast to
    -- json.Number without validation
    match value with
    | .jnum s => .ok (.jnum s)
    | .float tok => .ok (.float tok)
    | .str s => .ok (.jnum s)
    | v => .ok (.jnum (govFormat v))
  else if goToUpper typeHint = "BOOL" then
    match value with
    | .bool b => .ok (.bool b)
    | .str s => .ok (.bool (goToLower s == "true"))
    | v => .error ("cannot convert " ++ govFormat v ++ " to boolean")
  else if goToUpper typeHint = "NULL" then .ok .nil
  else if goToUpper typeHint = "L" then
    match value with
    | .arr xs => .ok (.arr xs)
    | .str s =>
      match goUnmarshalArr s with
      | some xs => .ok (.arr xs)
      | none => .error "cannot parse list: invalid JSON"
    | v => .ok (.arr [v])
  else if goToUpper typeHint = "M" then
    match value with
    | .obj kvs => (processTypeHints fuel kvs).map .obj
    | .str s =>
      match goUnmarshalObj s with
      | some kvs => (processTypeHints fuel kvs).map .obj
      | none => .error "cannot parse map: invalid JSON"
    | v => .error ("cannot convert " ++ govFormat v ++ " to map")
  else if goToUpper typeHint = "SS" then
    match value with
    | .arr xs => .ok (.obj [("__SS", .strList (xs.map govFormat))])
    | .str s =>
      match goUnmarshalArr s with
      | none => .ok (.obj [("__SS", .strList [s])])
      | some list => .ok (.obj [("__SS", .strList (list.map govFormat))])
    | v => .ok (.obj [("__SS", .strList [govFormat v])])
  else if goToUpper typeHint = "NS" then
    match value with
    | .arr xs => .ok (.obj [("__NS", .strList (xs.map govFormat))])
    | .str s =>
      match goUnmarshalArr s with
      | none => .ok (.obj [("__NS", .strList [s])])
      | some list => .ok (.obj [("__NS", .strList (list.map govFormat))])
    | v => .ok (.obj [("__NS", .strList [govFormat v])])
  else if goToUpper typeHint = "B" then
    match value with
    | .bytes bs => .ok (.bytes bs)
    | .str s => .ok (.bytes (utf8Bytes s))
    | v => .ok (.bytes (utf8Bytes (govFormat v)))
  else if goToUpper typeHint = "BS" then
    match value with
    | .arr xs => .ok (.obj [("__BS", .bytesList (xs.map bsMember))])
    | .str s =>
      match goUnmarshalArr s with
      | none => .ok (.obj [("__BS", .bytesList [utf8Bytes s])])
      | some list => .ok (.obj [("__BS", .bytesList (list.map bsMember))])
    | v => .ok (.obj [("__BS", .bytesList [utf8Bytes (govFormat v)])])
  else .error ("unknown type hint: " ++ typeHint)

/-- `processTypeHints` (part_003 lines 256–282). -/
def processTypeHints (fuel : Nat) (data : List (String × GoVal)) :
    Except String (List (String × GoVal)) :=
  match fuel with
  | 0 => .error "recursion limit exceeded"
  | fuel + 1 =>
  match data with
  | [] => .ok []
  | (key, value) :: rest =>
    if hasHintShape key then
      let cleanKey := (hintSplit key).1
      let typeHint := trimSuffixGt (hintSplit key).2
      match convertValueWithTypeHint fuel value typeHint with
      | .error e =>
        .error ("failed to convert " ++ cleanKey ++ " with type " ++ typeHint ++ ": " ++ e)
      | .ok converted => (processTypeHints fuel rest).map ((cleanKey, converted) :: ·)
    else
      (processTypeHints fuel rest).map ((key, value) :: ·)

end

/-- `JSONToItem` (part_003 lines 242–254), applied to the generic object
already produced by `json.Unmarshal`. -/
def jsonToItem (fuel : Nat) (data : List (String × GoVal)) : Except String Item :=
  (processTypeHints fuel data).map interfaceToAttributeValue

/-- The full round trip of C1: simplify the item (`attrToInterface`),
marshal and re-read the JSON text (`remarshal`), then decode it back
(`JSONToItem`). -/
def roundTrip (fuel : Nat) (item : Item) : Except String Item :=
  jsonToItem fuel (remarshalKVs (attributeValueToInterface item))

/-! ## JSON writing (`json.Marshal` / `json.MarshalIndent`)

A compact serializer standing in for `json.MarshalIndent` in
`ItemToPrettyJSON` (part_003 lines 232–240): the state machine only
threads this text through the editor workflow and compares it for
equality with the edited result, so indentation and key ordering are
never observed by any theorem below. -/

def jsonEscapeChar (c : Char) : List Char :=
  if c = '"' then ['\\', '"']
  else if c = '\\' then ['\\', '\\']
  else if c = '\n' then ['\\', 'n']
  else if c = '\t' then ['\\', 't']
  else if c = '\r' then ['\\', 'r']
  else [c]

def jsonQuote (s : String) : String :=
  "\"" ++ (⟨(s.toList.map jsonEscapeChar).flatten⟩ : String) ++ "\""

mutual

def jsonWrite : GoVal → String
  | .str s => jsonQuote s
  | .jnum s => s
  | .float tok => tok
  | .bool b => if b then "true" else "false"
  | .nil => "null"
  | .arr xs => "[" ++ ",".intercalate (jsonWriteList xs) ++ "]"
  | .obj kvs =>
    "\x7b" ++ ",".intercalate ((jsonWriteKVs kvs).map (fun p => jsonQuote p.1 ++ ":" ++ p.2)) ++ "\x7d"
  | .strList xs => "[" ++ ",".intercalate (xs.map jsonQuote) ++ "]"
  | .bytes bs => jsonQuote (base64Encode bs)
  | .bytesList bss => "[" ++ ",".intercalate (bss.map (fun bs => jsonQuote (base64Encode bs))) ++ "]"

def jsonWriteList : List GoVal → List String
  | [] => []
  | v :: vs => jsonWrite v :: jsonWriteList vs

def jsonWriteKVs : List (String × GoVal) → List (String × String)
  | [] => []
  | (k, v) :: rest => (k, jsonWrite v) :: jsonWriteKVs rest

end

/-- `ItemToPrettyJSON` (part_003 lines 232–240), modulo the compact
stand-in above for `MarshalIndent`. -/
def ItemToPrettyJSON (item : Item) : String :=
  jsonWrite (.obj (attributeValueToInterface item))

/-- `JSONToItem` (part_003 lines 242–254) on the raw string: unmarshal
the text as a generic object, process type hints, convert.  The fuel
`s.length + 1` dominates the size of anything parsed out of `s`. -/
def JSONToItem (s : String) : Except String Item :=
  match goUnmarshalObj s with
  | none => .error "invalid JSON: unmarshal error"
  | some kvs => jsonToItem (s.length + 1) kvs

/-! ## Pagination (`Scan` / `Query`, part_003 lines 129–187;
`ListTables`, lines 62–79)

Each of these loops issues the backend call, appends the returned page
to the accumulator, stops when the continuation cursor
(`LastEvaluatedKey` / `LastEvaluatedTableName`) is absent, and otherwise
re-issues the call starting from that cursor.  The backend is modelled
by the sequence of responses it returns to the successive calls. -/

/-- One scripted backend response: an error, or a page of results plus
whether a continuation cursor accompanied it. -/
inductive PageResp (α : Type) where
  | fail (e : String)
  | page (items : List α) (more : Bool)
deriving Repr

/-- The accumulation loop: consumes one scripted response per backend
call; returns the aggregated list and the number of calls made.
`.error "backend exhausted"` marks a script that ran out of responses
while the loop still held a cursor (the Go loop would call again). -/
def paginate {α : Type} : List (PageResp α) → Except String (List α × Nat)
  | [] => .error "backend exhausted"
  | .fail e :: _ => .error e
  | .page items false :: _ => .ok (items, 1)
  | .page items true :: rest => (paginate rest).map (fun r => (items ++ r.1, r.2 + 1))

/-- `(*DDB).Scan` / `(*DDB).Query` against a scripted backend. -/
def ddbScan (resps : List (PageResp Item)) : Except String (List Item × Nat) :=
  paginate resps

/-- `(*DDB).ListTables` against a scripted backend. -/
def ddbListTables (resps : List (PageResp String)) : Except String (List String × Nat) :=
  paginate resps

/-- A well-formed backend script for the given item pages: every page
except the last comes with a continuation cursor, the last without. -/
def pagesScript {α : Type} : List (List α) → List (PageResp α)
  | [] => []
  | [p] => [.page p false]
  | p :: rest => .page p true :: pagesScript rest

/-! ## Command-line token helpers (`strings.Fields`, `TrimSpace`,
`SplitN`, the `fmt.Sscanf("%f")` probe of `ParseKeyValue`) -/

def goWhitespace (c : Char) : Bool := c = ' ' || c = '\t' || c = '\n' || c = '\r'

/-- `strings.TrimSpace`. -/
def goTrimSpace (s : String) : String :=
  ⟨(s.toList.dropWhile goWhitespace).reverse.dropWhile goWhitespace |>.reverse⟩

/-- `strings.Fields`: split around runs of whitespace. -/
def goFields (s : String) : List String :=
  ((s.toList.splitOnP goWhitespace).filter (· ≠ [])).map (fun cs => ⟨cs⟩)

/-- `strings.SplitN(s, "=", 2)`: split at the first `=`; `none` when no
`=` occurs (the Go call then yields a single part and `ParseKeyValue`
rejects it). -/
def splitFirstEq (s : String) : Option (String × String) :=
  if s.toList.contains '=' then
    some (⟨s.toList.takeWhile (· ≠ '=')⟩, ⟨(s.toList.dropWhile (· ≠ '=')).drop 1⟩)
  else none

/-- Success of `fmt.Sscanf(value, "%f", new(float64))`: a float can be
scanned from the front of the string (greedy prefix scan; trailing
characters are left unread without error). -/
def sscanfFloatOk (s : String) : Bool :=
  let cs := s.toList.dropWhile (· = ' ')
  let cs := match cs with
    | '+' :: r => r
    | '-' :: r => r
    | _ => cs
  let intD := cs.takeWhile isDigit
  let cs2 := cs.drop intD.length
  let fracD := match cs2 with
    | '.' :: r => r.takeWhile isDigit
    | _ => []
  !intD.isEmpty || !fracD.isEmpty

/-- `ParseKeyValue` (part_003 lines 565–581). -/
def ParseKeyValue (keyValue : String) : Except String (String × AttrValue) :=
  match splitFirstEq keyValue with
  | none => .error ("invalid key=value format: " ++ keyValue)
  | some (p1, p2) =>
    let key := goTrimSpace p1
    let value := goTrimSpace p2
    if sscanfFloatOk value && !(value.toList.contains '"') then
      .ok (key, .N value)
    else
      .ok (key, .S value)

/-! ## Interaction state machine (part_000)

The Elm-style `Model` / `Update` pair.  External collaborators are
modelled at their boundary:

* the `bubbles` textinput component is reduced to its string value
  (single printable keys append, which is all the claims observe);
* file creation in `openEditor` succeeds (its two error branches concern
  the host filesystem, not the state machine) and the unique temp-file
  name is a nominal constant;
* `tea.Cmd` values returned to the runtime are reified as `Cmd` data
  describing the deferred work they would perform. -/

structure IndexInfo where
  Name : String
  PartitionKey : String
  SortKey : String
deriving Repr, DecidableEq, Inhabited

structure TableInfo where
  Name : String
  PartitionKey : String
  SortKey : String
  GlobalIndexes : List IndexInfo
  LocalIndexes : List IndexInfo
deriving Repr, DecidableEq, Inhabited

inductive Mode where
  | normal
  | command
  | tableSelect
  | itemView
  | confirmDelete
  | help
  | errorView
deriving Repr, DecidableEq

structure Model where
  tables : List TableInfo
  currentTable : Nat
  requestedTable : String
  items : List Item
  cursor : Nat
  selected : List Nat      -- the key set of `map[int]bool` (entries are only ever set to true)
  width : Nat
  height : Nat
  mode : Mode
  input : String           -- textinput value
  keyBuffer : String
  status : String
  errText : Option String  -- `m.err`
  viewContent : String
  editTmpFile : String
  editOrigContent : String
  preserveStatus : Bool
  lastError : String
deriving Repr

/-- The deferred work of a `tea.Cmd` returned by the state machine. -/
inductive Cmd where
  | quit
  | loadItems (table index : String)
  | queryItems (table index keyCondition : String) (exprValues : List (String × AttrValue))
  | getItem (table : String) (key : Item)
  | fetchForEdit (table : String) (key : Item)
  | deleteItem (table : String) (key : Item)
  | batchDelete (table : String) (indices : List Nat)
  | saveEdited (table content : String)
  | opDoneError (e : String)    -- a command that immediately yields operationDoneMsg{err}
  | runEditor (tmpFile content : String)
deriving Repr

inductive Msg where
  | windowSize (w h : Nat)
  | tablesLoaded (tables : List TableInfo) (err : Option String)
  | itemsLoaded (items : List Item) (err : Option String) (noMatch : Bool)
  | operationDone (status : String) (err : Option String)
  | editorFinished (content original : String) (err : Option String)
  | itemFetchedForEdit (item : Option Item) (err : Option String)
  | key (k : String)
deriving Repr

/-- `NewModel` (part_000 lines 103–117). -/
def NewModel (requestedTable : String) : Model where
  tables := []
  currentTable := 0
  requestedTable := requestedTable
  items := []
  cursor := 0
  selected := []
  width := 0
  height := 0
  mode := .normal
  input := ""
  keyBuffer := ""
  status := "Loading tables..."
  errText := none
  viewContent := ""
  editTmpFile := ""
  editOrigContent := ""
  preserveStatus := false
  lastError := ""

/-- UTF-8 byte length of a Go string (`len(s)`). -/
def byteLen (s : String) : Nat := (utf8Bytes s).length

def takeBytesAux (n : Nat) : List Char → List Char
  | [] => []
  | c :: cs =>
    let k := (utf8EncodeChar c).length
    if k ≤ n then c :: takeBytesAux (n - k) cs else []

/-- `s[:n]` on a Go string: the first `n` bytes.  Modelled as the longest
character prefix of at most `n` bytes (identical whenever byte `n` falls
on a rune boundary, which holds for every ASCII message involved). -/
def takeBytes (n : Nat) (s : String) : String := ⟨takeBytesAux n s.toList⟩

/-- `setError` (part_000 lines 123–135). -/
def setError (m : Model) (e : String) : Model :=
  let m1 := { m with lastError := e, errText := some e }
  if byteLen e > 50 then
    { m1 with
      status := takeBytes 47 e ++ "... (/err)"
      viewContent := e
      mode := .errorView }
  else
    { m1 with status := e }

def selInsert (s : List Nat) (i : Nat) : List Nat :=
  if s.contains i then s else i :: s

def selRemove (s : List Nat) (i : Nat) : List Nat := s.filter (· ≠ i)

/-- `openEditor` (part_000 lines 778–818), success path: record the
original content and temp file, hand the editor subprocess to the
runtime. -/
def openEditor (m : Model) (content : String) : Model × Option Cmd :=
  let m1 := { m with editOrigContent := content, editTmpFile := "dui-tmp.json" }
  (m1, some (.runEditor m1.editTmpFile content))

/-- `editCurrentItem` (part_000 lines 769–776). -/
def editCurrentItem (m : Model) : Model × Option Cmd :=
  if m.items.length = 0 ∨ m.cursor ≥ m.items.length then
    ({ m with status := "No item selected" }, none)
  else
    openEditor m (ItemToPrettyJSON (m.items.getD m.cursor []))

/-- `putNewItem` (part_000 lines 753–767). -/
def putNewItem (m : Model) : Model × Option Cmd :=
  let content :=
    if m.tables.length > 0 then
      let table := m.tables.getD m.currentTable default
      if table.SortKey ≠ "" then
        "\x7b\n  \"" ++ table.PartitionKey ++ "\": \"\",\n  \"" ++ table.SortKey ++ "\": \"\"\n\x7d"
      else
        "\x7b\n  \"" ++ table.PartitionKey ++ "\": \"\"\n\x7d"
    else "\x7b\x7d"
  openEditor m content

/-- `saveEditedItem` (part_000 lines 820–842): all its work happens in
the returned command. -/
def saveEditedItem (m : Model) (content : String) : Option Cmd :=
  if m.tables.length = 0 then some (.opDoneError "no table selected")
  else some (.saveEdited (m.tables.getD m.currentTable default).Name content)

/-- `deleteSelectedItems` (part_000 lines 703–751): compute the index
set at dispatch time, defer the deletions. -/
def deleteSelectedItems (m : Model) : Option Cmd :=
  if m.tables.length = 0 ∨ m.items.length = 0 then none
  else
    let toDelete :=
      if m.selected.length > 0 then m.selected
      else if m.cursor < m.items.length then [m.cursor]
      else []
    if toDelete.length = 0 then none
    else some (.batchDelete (m.tables.getD m.currentTable default).Name toDelete)

/-- Key construction shared by `executeGet` / `executeUpdate` /
`executeDelete` (first arg is the partition key value, optional second
the sort key value when the table has a sort key). -/
def buildArgKey (table : TableInfo) (args : List String) : Item :=
  let key : Item := [(table.PartitionKey, .S (args.getD 0 ""))]
  if args.length > 1 ∧ table.SortKey ≠ "" then
    key ++ [(table.SortKey, .S (args.getD 1 ""))]
  else key

/-- `executeQuery` (part_000 lines 578–616). -/
def executeQuery (m : Model) (args : List String) : Model × Option Cmd :=
  if m.tables.length = 0 then ({ m with status := "No table selected" }, none)
  else
    let table := m.tables.getD m.currentTable default
    let useIndex := args.length > 1 ∧ ¬ (args.getD 0 "").toList.contains '='
    let indexName := if useIndex then args.getD 0 "" else ""
    let keyArgs := if useIndex then args.drop 1 else args
    if keyArgs.length = 0 then
      ({ m with status := "Usage: /query [indexName] pk=value" }, none)
    else
      match ParseKeyValue (keyArgs.getD 0 "") with
      | .error e => ({ m with status := "Error: " ++ e }, none)
      | .ok (pkName, pkValue) =>
        (m, some (.queryItems table.Name indexName (pkName ++ " = :pk") [(":pk", pkValue)]))

/-- `executeGet` (part_000 lines 618–646). -/
def executeGet (m : Model) (args : List String) : Model × Option Cmd :=
  if m.tables.length = 0 then ({ m with status := "No table selected" }, none)
  else
    let table := m.tables.getD m.currentTable default
    (m, some (.getItem table.Name (buildArgKey table args)))

/-- `executeUpdate` (part_000 lines 648–674). -/
def executeUpdate (m : Model) (args : List String) : Model × Option Cmd :=
  if m.tables.length = 0 then ({ m with status := "No table selected" }, none)
  else
    let table := m.tables.getD m.currentTable default
    (m, some (.fetchForEdit table.Name (buildArgKey table args)))

/-- `executeDelete` (part_000 lines 676–701). -/
def executeDelete (m : Model) (args : List String) : Model × Option Cmd :=
  if m.tables.length = 0 then ({ m with status := "No table selected" }, none)
  else
    let table := m.tables.getD m.currentTable default
    (m, some (.deleteItem table.Name (buildArgKey table args)))

/-- `executeCommand` (part_000 lines 499–576).  The Go locals `cmd`
(the trimmed input) and `command` (the lowercased first token) are
inlined at each use. -/
def executeCommand (m : Model) (rawCmd : String) : Model × Option Cmd :=
  -- special commands, matched on the exact (trimmed) input text
  if goTrimSpace rawCmd = ":q" ∨ goTrimSpace rawCmd = ":quit" ∨
      goTrimSpace rawCmd = "/q" ∨ goTrimSpace rawCmd = "\\q" then (m, some .quit)
  else if goTrimSpace rawCmd = ":?" ∨ goTrimSpace rawCmd = ":help" ∨
      goTrimSpace rawCmd = "/?" ∨ goTrimSpace rawCmd = "/help" then
    ({ m with mode := .help }, none)
  else if goTrimSpace rawCmd = "/err" then
    if m.lastError ≠ "" then
      ({ m with viewContent := m.lastError, mode := .errorView }, none)
    else
      ({ m with status := "No errors" }, none)
  else if goTrimSpace rawCmd = "/mlrd" then
    ({ m with status := "https://mlrd.tech/docs ~ https://mlrd.app" }, none)
  else
    match goFields (goTrimSpace rawCmd) with
    | [] => (m, none)
    | first :: args =>
      if goToLower first = "/scan" then
        if m.tables.length > 0 then
          (m, some (.loadItems (m.tables.getD m.currentTable default).Name (args.getD 0 "")))
        else
          -- the Go `case` falls through the switch when no table is loaded
          (setError m ("unknown command: " ++ goToLower first), none)
      else if goToLower first = "/query" then
        if args.length < 1 then ({ m with status := "Usage: /query [indexName] pk=value" }, none)
        else executeQuery m args
      else if goToLower first = "/get" then
        if args.length < 1 then ({ m with status := "Usage: /get pk [sk]" }, none)
        else executeGet m args
      else if goToLower first = "/put" then
        putNewItem m
      else if goToLower first = "/update" then
        if args.length < 1 then ({ m with status := "Usage: /update pk [sk]" }, none)
        else executeUpdate m args
      else if goToLower first = "/delete" ∨ goToLower first = "/rm" then
        if args.length < 1 then ({ m with mode := .confirmDelete }, none)
        else executeDelete m args
      else
        (setError m ("unknown command: " ++ goToLower first), none)

/-- The `bubbles` textinput component reduced to its boundary: a single
printable key appends to the value (editing keys of the external
component are not modelled; no claim observes them). -/
def textinputUpdate (v : String) (k : String) : String :=
  if k.length = 1 then v ++ k else v

/-- `handleCommandMode` (part_000 lines 426–443). -/
def handleCommandMode (m : Model) (k : String) : Model × Option Cmd :=
  if k = "esc" then ({ m with mode := .normal, input := "" }, none)
  else if k = "enter" then
    let cmd := m.input
    executeCommand { m with input := "", mode := .normal } cmd
  else
    ({ m with input := textinputUpdate m.input k }, none)

/-- `handleTableSelectMode` (part_000 lines 445–471). -/
def handleTableSelectMode (m : Model) (k : String) : Model × Option Cmd :=
  if k = "esc" then ({ m with mode := .normal }, none)
  else if k = "up" ∨ k = "k" then
    (if m.currentTable > 0 then { m with currentTable := m.currentTable - 1 } else m, none)
  else if k = "down" ∨ k = "j" then
    (if m.currentTable < m.tables.length - 1 then
       { m with currentTable := m.currentTable + 1 } else m, none)
  else if k = "enter" then
    let m1 := { m with mode := .normal }
    if m1.tables.length > 0 then
      (m1, some (.loadItems (m1.tables.getD m1.currentTable default).Name ""))
    else (m1, none)
  else (m, none)

/-- `handleItemViewMode` (part_000 lines 473–484). -/
def handleItemViewMode (m : Model) (k : String) : Model × Option Cmd :=
  if k = "esc" ∨ k = "q" ∨ k = "enter" then
    ({ m with mode := .normal, viewContent := "" }, none)
  else if k = "e" then
    editCurrentItem { m with mode := .normal, viewContent := "" }
  else (m, none)

/-- `handleConfirmDeleteMode` (part_000 lines 486–497). -/
def handleConfirmDeleteMode (m : Model) (k : String) : Model × Option Cmd :=
  if k = "y" ∨ k = "Y" then
    let m1 := { m with mode := .normal }
    (m1, deleteSelectedItems m1)
  else if k = "n" ∨ k = "N" ∨ k = "esc" then
    ({ m with mode := .normal }, none)
  else (m, none)

/-- The `Normal`-mode arm of `handleKeyPress` (part_000 lines 295–423). -/
def handleNormalKey (m : Model) (k : String) : Model × Option Cmd :=
  if k = "ctrl+c" then (m, some .quit)
  else if k = "q" then
    -- NOTE: this branch leaves m.keyBuffer untouched
    if m.keyBuffer = ":" then (m, some .quit) else (m, none)
  else if k = ":" then
    let m1 := { m with mode := .command, input := ":", keyBuffer := "" }
    if m1.errText.isSome then
      ({ m1 with errText := none, status := toString m1.items.length ++ " items" }, none)
    else (m1, none)
  else if k = "/" then
    let m1 := { m with mode := .command, input := "/", keyBuffer := "" }
    if m1.errText.isSome then
      ({ m1 with errText := none, status := toString m1.items.length ++ " items" }, none)
    else (m1, none)
  else if k = "up" ∨ k = "k" then
    let m1 := if m.cursor > 0 then { m with cursor := m.cursor - 1 } else m
    ({ m1 with keyBuffer := "" }, none)
  else if k = "down" ∨ k = "j" then
    let m1 := if m.cursor < m.items.length - 1 then { m with cursor := m.cursor + 1 } else m
    ({ m1 with keyBuffer := "" }, none)
  else if k = "enter" then
    if m.input ≠ "" then
      let cmd := m.input
      executeCommand { m with input := "", keyBuffer := "" } cmd
    else
      let m1 :=
        if m.items.length > 0 ∧ m.cursor < m.items.length then
          { m with viewContent := ItemToPrettyJSON (m.items.getD m.cursor []), mode := .itemView }
        else m
      ({ m1 with keyBuffer := "" }, none)
  else if k = " " then
    let m1 :=
      if m.items.length > 0 then
        if m.selected.contains m.cursor then
          { m with selected := selRemove m.selected m.cursor }
        else
          { m with selected := selInsert m.selected m.cursor }
      else m
    ({ m1 with keyBuffer := "" }, none)
  else if k = "e" then
    if m.items.length > 0 ∧ m.selected.length ≤ 1 then
      -- NOTE: early return, m.keyBuffer untouched
      editCurrentItem m
    else ({ m with keyBuffer := "" }, none)
  else if k = "d" then
    if m.keyBuffer = "d" then
      ({ m with mode := .confirmDelete, keyBuffer := "" }, none)
    else
      ({ m with keyBuffer := "d" }, none)
  else if k = "t" then
    ({ m with mode := .tableSelect, keyBuffer := "" }, none)
  else if k = "i" ∨ k = "a" then
    putNewItem { m with keyBuffer := "" }
  else if k = "?" then
    ({ m with mode := .help, keyBuffer := "" }, none)
  else if k = "esc" then
    ({ m with keyBuffer := "", input := "", mode := .normal }, none)
  else if k = "g" then
    if m.keyBuffer = "g" then
      ({ m with cursor := 0, keyBuffer := "" }, none)
    else
      ({ m with keyBuffer := "g" }, none)
  else if k = "G" then
    ({ m with cursor := m.items.length - 1, keyBuffer := "" }, none)
  else
    ({ m with keyBuffer := "" }, none)

/-- `handleKeyPress` (part_000 lines 270–424). -/
def handleKeyPress (m : Model) (k : String) : Model × Option Cmd :=
  match m.mode with
  | .command => handleCommandMode m k
  | .tableSelect => handleTableSelectMode m k
  | .itemView => handleItemViewMode m k
  | .confirmDelete => handleConfirmDeleteMode m k
  | .errorView =>
    if k = "esc" ∨ k = "enter" ∨ k = "q" then
      ({ m with mode := .normal, viewContent := "" }, none)
    else (m, none)
  | .help =>
    if k = "esc" ∨ k = "q" ∨ k = "?" then
      ({ m with mode := .normal, viewContent := "" }, none)
    else (m, none)
  | .normal => handleNormalKey m k

/-- `Update` (part_000 lines 166–268). -/
def Update (m : Model) (msg : Msg) : Model × Option Cmd :=
  match msg with
  | .windowSize w h => ({ m with width := w, height := h }, none)
  | .tablesLoaded tables err =>
    match err with
    | some e => (setError m e, none)
    | none =>
      let m1 := { m with tables := tables }
      if m1.tables.length > 0 then
        let found := m1.tables.findIdx? (fun t => t.Name = m1.requestedTable)
        let m2 :=
          if m1.requestedTable ≠ "" then
            match found with
            | some i =>
              { m1 with currentTable := i
                        status := "Loaded " ++ toString m1.tables.length ++ " tables" }
            | none =>
              { m1 with currentTable := 0
                        status := "Table '" ++ m1.requestedTable ++ "' not found, using "
                                    ++ (m1.tables.getD 0 default).Name
                        preserveStatus := true }
          else
            { m1 with currentTable := 0
                      status := "Loaded " ++ toString m1.tables.length ++ " tables" }
        (m2, some (.loadItems (m2.tables.getD m2.currentTable default).Name ""))
      else
        ({ m1 with status := "No tables found" }, none)
  | .itemsLoaded items err noMatch =>
    match err with
    | some e => (setError m e, none)
    | none =>
      let m1 := { m with items := items, cursor := 0, selected := [] }
      if noMatch then ({ m1 with status := "No matching item" }, none)
      else if m1.preserveStatus then ({ m1 with preserveStatus := false }, none)
      else ({ m1 with status := "Loaded " ++ toString m1.items.length ++ " items" }, none)
  | .operationDone status err =>
    match err with
    | some e => (setError m e, none)
    | none =>
      let m1 := { m with status := status, errText := none }
      if m1.tables.length > 0 then
        (m1, some (.loadItems (m1.tables.getD m1.currentTable default).Name ""))
      else (m1, none)
  | .editorFinished content original err =>
    match err with
    | some e => (setError m e, none)
    | none =>
      if content = original then ({ m with status := "No changes made" }, none)
      else (m, saveEditedItem m content)
  | .itemFetchedForEdit item err =>
    match err with
    | some e => ({ m with status := "Error: " ++ e }, none)
    | none =>
      match item with
      | none => ({ m with status := "Item not found" }, none)
      | some it =>
        editCurrentItem { m with items := [it], cursor := 0 }
  | .key k => handleKeyPress m k

/-! ## Editor workflow effect trace (part_000 lines 778–842)

The `tea.ExecProcess` callback installed by `openEditor` runs after the
external editor exits; `Update` then receives the `editorFinishedMsg`
and, if the content changed, dispatches the `saveEditedItem` command,
whose body parses the content and issues `PutItem`.  `editSaveTrace`
records the ordered observable effects of one such interaction.
`editorExit` is the editor subprocess's exit error and `readResult`
scripts `os.ReadFile` on the temp file; `hasTable` is
`len(m.tables) > 0` at save time. -/

inductive EditEvent where
  | readTmpFile
  | removeTmpFile
  | parseEdited
  | putItemCall
deriving Repr, DecidableEq, BEq

def editSaveTrace (editorExit : Option String) (readResult : Except String String)
    (original : String) (hasTable : Bool) : List EditEvent :=
  match editorExit with
  | some _ => [.removeTmpFile]                -- os.Remove, editorFinishedMsg{err}
  | none =>
    [.readTmpFile, .removeTmpFile] ++         -- result ← os.ReadFile; os.Remove
    match readResult with
    | .error _ => []                          -- editorFinishedMsg{err}
    | .ok content =>
      if content = original then []           -- Update: "No changes made"
      else if !hasTable then []               -- saveEditedItem: operationDone error
      else
        .parseEdited ::                       -- JSONToItem(content)
        match JSONToItem content with
        | .error _ => []                      -- operationDoneMsg{err}: edit text dropped
        | .ok _ => [.putItemCall]             -- ddb.PutItem

/-! # Theorems -/

/-! ## C8 — pagination -/

theorem paginate_pagesScript {α : Type} (ps : List (List α)) (hne : ps ≠ [])
    (extra : List (PageResp α)) :
    paginate (pagesScript ps ++ extra) = .ok (ps.flatten, ps.length) := by
  induction ps with
  | nil => exact absurd rfl hne
  | cons p rest ih =>
    cases rest with
    | nil => simp [pagesScript, paginate]
    | cons q qs =>
      have ih2 := ih (by simp)
      simp only [pagesScript, List.cons_append, paginate, List.append_eq]
      rw [ih2]
      simp [Except.map]

/-- C8: every listing/scanning/querying backend loop re-issues the call
with the previous response's continuation cursor until the cursor is
absent, accumulating all pages in order into one list; it makes exactly
one call per page, so nothing is consumed past the final (cursor-less)
page — any further scripted responses (`extraI`/`extraT`) are untouched.
Instantiated for `Scan`/`Query` over items and for `ListTables` over
table names. -/
theorem c8_pagination (ps : List (List Item)) (ts : List (List String))
    (hps : ps ≠ []) (hts : ts ≠ [])
    (extraI : List (PageResp Item)) (extraT : List (PageResp String)) :
    ddbScan (pagesScript ps ++ extraI) = .ok (ps.flatten, ps.length) ∧
    ddbListTables (pagesScript ts ++ extraT) = .ok (ts.flatten, ts.length) :=
  ⟨paginate_pagesScript ps hps extraI, paginate_pagesScript ts hts extraT⟩

def recNo (i : Nat) : Item := [("id", .N (toString i))]

/-- C8 witness: a backend returning 3 pages of 2 records each yields
exactly the 6 records in order, in exactly 3 calls. -/
theorem c8_pagination_witness :
    ddbScan (pagesScript [[recNo 1, recNo 2], [recNo 3, recNo 4], [recNo 5, recNo 6]]) =
      .ok ([recNo 1, recNo 2, recNo 3, recNo 4, recNo 5, recNo 6], 3) ∧
    ddbListTables (pagesScript [["users"], ["orders"]]) = .ok (["users", "orders"], 2) := by
  have h := c8_pagination [[recNo 1, recNo 2], [recNo 3, recNo 4], [recNo 5, recNo 6]]
    [["users"], ["orders"]] (by simp) (by simp) [] []
  simpa using h

/-! ## C10 — unchanged editor content -/

/-- C10: when the external editor exits successfully with content
byte-for-byte equal to the original, `Update` issues no command at all
(in particular no save / `PutItem`) and changes nothing in the session
but the status text, which becomes "No changes made". -/
theorem c10_no_changes (m : Model) (content original : String)
    (h : content = original) :
    Update m (.editorFinished content original none) =
      ({ m with status := "No changes made" }, none) := by
  simp [Update, h]

/-- C10 witness at a concrete session and content. -/
theorem c10_no_changes_witness :
    Update (NewModel "users") (.editorFinished "\x7b\x7d" "\x7b\x7d" none) =
      ({ NewModel "users" with status := "No changes made" }, none) :=
  c10_no_changes (NewModel "users") "\x7b\x7d" "\x7b\x7d" rfl

/-! ## C7 — meta-command matching -/

/-- C7 counterexample: the meta-command spellings are NOT closed under
both prefixes.  `/quit` does not quit — it is reported as an unknown
command with no quit command issued — and `:err` does not show the last
error: the view content stays empty, the last error is not displayed,
and the status reports an unknown command. -/
theorem c7_counterexample :
    (executeCommand (NewModel "") "/quit").2 = none ∧
    (executeCommand (NewModel "") "/quit").1.status = "unknown command: /quit" ∧
    (executeCommand { NewModel "" with lastError := "boom" } ":err").1.viewContent = "" ∧
    (executeCommand { NewModel "" with lastError := "boom" } ":err").1.status =
      "unknown command: :err" :=
  ⟨rfl, rfl, rfl, rfl⟩

/-- C7 amended: meta-commands are matched on exact input text, but the
recognized spellings are asymmetric in their prefixes: quit is exactly
one of `:q`, `:quit`, `/q`, `\q` (no `/quit`); help is `:?`, `:help`,
`/?`, `/help`; show-last-error is `/err` only (no `:err`).  The
unrecognized spellings `/quit` and `:err` fall through to the unknown-
command error. -/
theorem c7_amended (m : Model) :
    (∀ c, goTrimSpace c = ":q" ∨ goTrimSpace c = ":quit" ∨ goTrimSpace c = "/q" ∨
        goTrimSpace c = "\\q" → executeCommand m c = (m, some .quit)) ∧
    (∀ c, goTrimSpace c = ":?" ∨ goTrimSpace c = ":help" ∨ goTrimSpace c = "/?" ∨
        goTrimSpace c = "/help" → executeCommand m c = ({ m with mode := .help }, none)) ∧
    (m.lastError ≠ "" →
      executeCommand m "/err" =
        ({ m with viewContent := m.lastError, mode := .errorView }, none)) ∧
    (executeCommand m "/quit" = (setError m "unknown command: /quit", none)) ∧
    (executeCommand m ":err" = (setError m "unknown command: :err", none)) := by
  refine ⟨?_, ?_, ?_, ?_, ?_⟩
  · intro c hc
    rcases hc with h | h | h | h <;> simp [executeCommand, h]
  · intro c hc
    rcases hc with h | h | h | h <;> simp [executeCommand, h]
  · intro h
    simp [executeCommand, show goTrimSpace "/err" = "/err" from by decide, h]
  · simp [executeCommand, show goTrimSpace "/quit" = "/quit" from by decide,
      show goFields "/quit" = ["/quit"] from by decide,
      show goToLower "/quit" = "/quit" from by decide]
  · simp [executeCommand, show goTrimSpace ":err" = ":err" from by decide,
      show goFields ":err" = [":err"] from by decide,
      show goToLower ":err" = ":err" from by decide]

/-- C7 witness: the amended characterization applied at concrete
commands. -/
theorem c7_amended_witness :
    executeCommand (NewModel "") ":quit" = (NewModel "", some .quit) ∧
    executeCommand (NewModel "") "/help" = ({ NewModel "" with mode := .help }, none) ∧
    executeCommand { NewModel "" with lastError := "boom" } "/err" =
      ({ NewModel "" with lastError := "boom", viewContent := "boom",
                          mode := .errorView }, none) := by
  refine ⟨?_, ?_, ?_⟩
  · exact (c7_amended (NewModel "")).1 ":quit" (by right; left; decide)
  · exact (c7_amended (NewModel "")).2.1 "/help" (by right; right; right; decide)
  · exact (c7_amended { NewModel "" with lastError := "boom" }).2.2.1 (by decide)

/-! ## C5 — the Normal-mode chord buffer -/

/-- In any non-`ConfirmDelete` state whose `Normal`-mode chord buffer is
not `"d"`, pressing `d` does not enter the confirm-delete mode. -/
theorem stepD_not_confirm (m : Model)
    (h1 : m.mode ≠ .confirmDelete)
    (h2 : m.mode = .normal → m.keyBuffer ≠ "d") :
    (Update m (.key "d")).1.mode ≠ .confirmDelete := by
  cases hm : m.mode <;>
    simp_all [Update, handleKeyPress, handleCommandMode, handleTableSelectMode,
      handleItemViewMode, handleNormalKey, textinputUpdate]

/-- C5 counterexample: the chord lookback buffer is NOT reset by `q` in
`Normal` mode (the `q` handler returns without touching it), so with one
record loaded the key sequence `d`, `q`, `d` opens the confirm-delete
flow even though `q` interrupted the chord. -/
theorem c5_counterexample :
    (Update (Update { NewModel "" with items := [recNo 1] } (.key "d")).1
        (.key "q")).1.keyBuffer = "d" ∧
    (Update (Update { NewModel "" with items := [recNo 1] } (.key "d")).1
        (.key "q")).1.mode = Mode.normal ∧
    (Update (Update (Update { NewModel "" with items := [recNo 1] } (.key "d")).1
        (.key "q")).1 (.key "d")).1.mode = Mode.confirmDelete :=
  ⟨rfl, rfl, rfl⟩

/-- C5 amended: in `Normal` mode the chord buffer is reset by every
keystroke that does not continue a chord EXCEPT `q` (whose handler
returns early, leaving the buffer untouched), `ctrl+c` (which quits),
and an `e` that fires the edit workflow (items present and at most one
selection).  Consequently: `d` then `d` opens confirm-delete; `d`
followed by any other key outside those exceptions disarms the chord —
confirm-delete opens neither on that keystroke nor on one further `d` —
while `d`, `q`, `d` does open it. -/
theorem c5_amended (m : Model) (k : String)
    (hmode : m.mode = .normal) (hbuf : m.keyBuffer = "d") (hinput : m.input = "")
    (hkd : k ≠ "d") (hkq : k ≠ "q") (hkc : k ≠ "ctrl+c")
    (hke : ¬(k = "e" ∧ 0 < m.items.length ∧ m.selected.length ≤ 1)) :
    (Update m (.key k)).1.mode ≠ .confirmDelete ∧
    (Update (Update m (.key k)).1 (.key "d")).1.mode ≠ .confirmDelete ∧
    (Update m (.key "d")).1.mode = .confirmDelete ∧
    (Update m (.key "q")).1.keyBuffer = "d" ∧
    (Update (Update m (.key "q")).1 (.key "d")).1.mode = .confirmDelete := by
  have key_step : (Update m (.key k)).1.mode ≠ .confirmDelete ∧
      ((Update m (.key k)).1.mode = .normal → (Update m (.key k)).1.keyBuffer ≠ "d") := by
    simp only [Update, handleKeyPress, hmode]
    by_cases h3 : k = ":"
    · subst h3; simp [handleNormalKey, apply_ite, hmode]
    by_cases h4 : k = "/"
    · subst h4; simp [handleNormalKey, apply_ite, hmode]
    by_cases h5 : k = "up"
    · subst h5; simp [handleNormalKey, apply_ite, hmode]
    by_cases h6 : k = "k"
    · subst h6; simp [handleNormalKey, apply_ite, hmode]
    by_cases h7 : k = "down"
    · subst h7; simp [handleNormalKey, apply_ite, hmode]
    by_cases h8 : k = "j"
    · subst h8; simp [handleNormalKey, apply_ite, hmode]
    by_cases h9 : k = "enter"
    · subst h9; simp [handleNormalKey, apply_ite, ite_apply, hinput, hmode]
    by_cases h10 : k = " "
    · subst h10; simp [handleNormalKey, apply_ite, hmode]
    by_cases h11 : k = "e"
    · subst h11
      have hke2 : ¬(0 < m.items.length ∧ m.selected.length ≤ 1) := fun hc => hke ⟨rfl, hc⟩
      simp [handleNormalKey, hke2, hmode]
    by_cases h13 : k = "t"
    · subst h13; simp [handleNormalKey, apply_ite, hmode]
    by_cases h14 : k = "i"
    · subst h14; simp [handleNormalKey, putNewItem, openEditor, apply_ite, hmode]
    by_cases h15 : k = "a"
    · subst h15; simp [handleNormalKey, putNewItem, openEditor, apply_ite, hmode]
    by_cases h16 : k = "?"
    · subst h16; simp [handleNormalKey, apply_ite, hmode]
    by_cases h17 : k = "esc"
    · subst h17; simp [handleNormalKey, apply_ite, hmode]
    by_cases h18 : k = "g"
    · subst h18; simp [handleNormalKey, hbuf, apply_ite, hmode]
    by_cases h19 : k = "G"
    · subst h19; simp [handleNormalKey, apply_ite, hmode]
    · simp [handleNormalKey, hkc, hkq, h3, h4, h5, h6, h7, h8, h9, h10, h11, hkd,
        h13, h14, h15, h16, h17, h18, h19, hmode]
  refine ⟨key_step.1, stepD_not_confirm _ key_step.1 key_step.2, ?_, ?_, ?_⟩
  · simp [Update, handleKeyPress, hmode, handleNormalKey, hbuf]
  · simp [Update, handleKeyPress, hmode, handleNormalKey, hbuf]
  · have hq : Update m (.key "q") = (m, none) := by
      simp [Update, handleKeyPress, hmode, handleNormalKey, hbuf]
    rw [hq]
    simp [Update, handleKeyPress, hmode, handleNormalKey, hbuf]

/-- C5 witness: the amended characterization at a concrete session and
the disarming key `j`. -/
theorem c5_amended_witness :
    (Update { NewModel "" with keyBuffer := "d" } (.key "j")).1.mode ≠ .confirmDelete ∧
    (Update (Update { NewModel "" with keyBuffer := "d" } (.key "j")).1
        (.key "d")).1.mode ≠ .confirmDelete ∧
    (Update { NewModel "" with keyBuffer := "d" } (.key "d")).1.mode = .confirmDelete ∧
    (Update { NewModel "" with keyBuffer := "d" } (.key "q")).1.keyBuffer = "d" ∧
    (Update (Update { NewModel "" with keyBuffer := "d" } (.key "q")).1
        (.key "d")).1.mode = .confirmDelete :=
  c5_amended { NewModel "" with keyBuffer := "d" } "j" rfl rfl rfl
    (by decide) (by decide) (by decide) (by simp)

/-! ## C6 — error retention, truncation and the ErrorView bounce -/

def longErrMsg : String :=
  "get item failed: connection refused at http://localhost:8000"

/-- C6 counterexample: an `itemFetchedForEditMsg` carrying an error is
an operation result, yet its error bypasses `setError`: even with a
message longer than the 50-byte threshold the session stays in `Normal`
mode and the last-error text is NOT updated (it stays empty), so the
message cannot be recalled with `/err`. -/
theorem c6_counterexample :
    byteLen longErrMsg > 50 ∧
    (Update (NewModel "") (.itemFetchedForEdit none (some longErrMsg))).1.mode =
      Mode.normal ∧
    (Update (NewModel "") (.itemFetchedForEdit none (some longErrMsg))).1.lastError = "" ∧
    (Update (NewModel "") (.itemFetchedForEdit none (some longErrMsg))).1.status =
      "Error: " ++ longErrMsg :=
  ⟨by decide, rfl, rfl, rfl⟩

/-- C6 amended: errors carried by `tablesLoadedMsg`, `itemsLoadedMsg`,
`operationDoneMsg` and `editorFinishedMsg` all flow through `setError`
regardless of the active mode: the last-error text is set to the message
verbatim, and when the message exceeds 50 bytes the status line gets the
47-byte prefix plus "... (/err)" and the mode becomes `ErrorView`
(otherwise the status is the message itself and the mode is unchanged).
The exception is `itemFetchedForEditMsg`, whose error is formatted into
the status line only: last error, mode and view content are untouched. -/
theorem c6_amended (m : Model) (e : String) (ts : List TableInfo) (its : List Item)
    (nm : Bool) (st c o : String) (it : Option Item) :
    Update m (.tablesLoaded ts (some e)) = (setError m e, none) ∧
    Update m (.itemsLoaded its (some e) nm) = (setError m e, none) ∧
    Update m (.operationDone st (some e)) = (setError m e, none) ∧
    Update m (.editorFinished c o (some e)) = (setError m e, none) ∧
    (setError m e).lastError = e ∧
    (byteLen e > 50 →
      (setError m e).mode = .errorView ∧
      (setError m e).status = takeBytes 47 e ++ "... (/err)" ∧
      (setError m e).viewContent = e) ∧
    (¬ byteLen e > 50 →
      (setError m e).status = e ∧ (setError m e).mode = m.mode) ∧
    Update m (.itemFetchedForEdit it (some e)) =
      ({ m with status := "Error: " ++ e }, none) := by
  refine ⟨rfl, rfl, rfl, rfl, ?_, ?_, ?_, rfl⟩
  · simp only [setError]
    split_ifs <;> rfl
  · intro h
    simp [setError, h]
  · intro h
    simp [setError, h]

/-- C6 witness: the amended characterization at a concrete session and
a concrete over-threshold message. -/
theorem c6_amended_witness :
    (setError (NewModel "") longErrMsg).lastError = longErrMsg ∧
    (setError (NewModel "") longErrMsg).mode = .errorView ∧
    (setError (NewModel "") longErrMsg).status = takeBytes 47 longErrMsg ++ "... (/err)" ∧
    Update (NewModel "") (.operationDone "" (some longErrMsg)) =
      (setError (NewModel "") longErrMsg, none) := by
  have h := c6_amended (NewModel "") longErrMsg [] [] false "" "" "" none
  exact ⟨h.2.2.2.2.1, (h.2.2.2.2.2.1 (by decide)).1, (h.2.2.2.2.2.1 (by decide)).2.1,
    h.2.2.1⟩

/-! ## C4 — the editor buffer and failed saves -/

/-- C4 counterexample: the temp file is removed immediately after the
editor exits and its content is read back — BEFORE the content is
parsed.  In this run the edited content `"not json"` fails to parse, yet
the trace shows the removal (position 1) happening ahead of the parse
attempt (position 2): the editor buffer is deleted without any
successful parse, contradicting the claim. -/
theorem c4_counterexample :
    editSaveTrace none (.ok "not json") "\x7b\x7d" true =
      [.readTmpFile, .removeTmpFile, .parseEdited] ∧
    JSONToItem "not json" = .error "invalid JSON: unmarshal error" :=
  ⟨rfl, rfl⟩

/-- C4 amended: the temp file is deleted exactly once on EVERY exit path
of the editor workflow — editor failure, read failure, unchanged
content, and both save outcomes — and the deletion always happens
strictly before any parse of the edited content (`indexOf` of an absent
event is the trace length, so the inequality also covers parse-free
runs).  A parse failure is reported as the operation's error; the edited
text itself is not retained anywhere. -/
theorem c4_amended (editorExit : Option String) (readResult : Except String String)
    (original : String) (hasTable : Bool) :
    (editSaveTrace editorExit readResult original hasTable).count .removeTmpFile = 1 ∧
    (editSaveTrace editorExit readResult original hasTable).indexOf EditEvent.removeTmpFile <
      (editSaveTrace editorExit readResult original hasTable).indexOf EditEvent.parseEdited := by
  unfold editSaveTrace
  cases editorExit with
  | some e => exact ⟨rfl, by first | decide | (simp only [List.indexOf_cons]; decide) | (simp [List.indexOf_cons] <;> decide)⟩
  | none =>
    cases readResult with
    | error e => exact ⟨rfl, by first | decide | (simp only [List.indexOf_cons]; decide) | (simp [List.indexOf_cons] <;> decide)⟩
    | ok content =>
      by_cases h1 : content = original
      · simp only [h1, if_pos rfl]
        exact ⟨rfl, by first | decide | (simp only [List.indexOf_cons]; decide) | (simp [List.indexOf_cons] <;> decide)⟩
      · simp only [if_neg h1]
        cases hasTable with
        | false => exact ⟨rfl, by first | decide | (simp only [List.indexOf_cons]; decide) | (simp [List.indexOf_cons] <;> decide)⟩
        | true =>
          simp only [Bool.not_true, Bool.false_eq_true, if_false]
          cases hj : JSONToItem content with
          | error e => exact ⟨rfl, by first | decide | (simp only [List.indexOf_cons]; decide) | (simp [List.indexOf_cons] <;> decide)⟩
          | ok item => exact ⟨rfl, by first | decide | (simp only [List.indexOf_cons]; decide) | (simp [List.indexOf_cons] <;> decide)⟩

/-! ## C2 — hint stripping -/

/-- Per-key effect of `processTypeHints` on an attribute name: a
hint-shaped key loses its last `<TYPE>` suffix, any other key is kept
verbatim. -/
def stripKey (k : String) : String :=
  if hasHintShape k then (hintSplit k).1 else k

/-- Hint-free input passes through `processTypeHints` unchanged (given
fuel beyond the entry count). -/
theorem processTypeHints_plain (fuel : Nat) (data : List (String × GoVal))
    (hlen : data.length < fuel)
    (hkeys : data.all (fun p => !hasHintShape p.1) = true) :
    processTypeHints fuel data = .ok data := by
  induction fuel generalizing data with
  | zero => omega
  | succ fuel ih =>
    cases data with
    | nil => simp [processTypeHints]
    | cons kv rest =>
      obtain ⟨key, value⟩ := kv
      simp only [List.all_cons, Bool.and_eq_true, Bool.not_eq_true'] at hkeys
      simp only [processTypeHints, hkeys.1, Bool.false_eq_true, if_false]
      rw [ih rest (by simp at hlen; omega) (by simp [List.all_eq_true] at hkeys ⊢; exact hkeys.2)]
      rfl

/-- C2 counterexample: decoding the JSON text
`{"a": {"b<N>": 5}}` SUCCEEDS, yet the resulting record retains the
attribute name `b<N>` — a `<TYPE>` type-hint suffix — inside the nested
Map value, because the nested map carried no `M` hint and so was kept
as-is. -/
theorem c2_counterexample :
    JSONToItem "\x7b\"a\": \x7b\"b<N>\": 5\x7d\x7d" =
      .ok [("a", .M [("b<N>", .N "5")])] ∧
    hasHintShape "b<N>" = true :=
  ⟨rfl, by decide⟩

/-- C2 amended: whenever `processTypeHints` succeeds, the keys of its
output are exactly the keys of its input with `stripKey` applied: each
hint-shaped name has its final `<TYPE>` suffix removed, every other
name — including every name inside a nested Map value that carried no
`M` hint, which is passed through as an opaque value — is kept verbatim.
(The same characterization applies recursively at each `M`-hinted level,
since that recursion is `processTypeHints` itself.) -/
theorem c2_amended (fuel : Nat) (data out : List (String × GoVal))
    (h : processTypeHints fuel data = .ok out) :
    out.map Prod.fst = data.map (fun p => stripKey p.1) := by
  induction fuel generalizing data out with
  | zero => simp [processTypeHints] at h
  | succ fuel ih =>
    cases data with
    | nil =>
      simp only [processTypeHints, Except.ok.injEq] at h
      subst h
      rfl
    | cons kv rest =>
      obtain ⟨key, value⟩ := kv
      by_cases hh : hasHintShape key
      · simp only [processTypeHints, hh, if_true] at h
        cases hc : convertValueWithTypeHint fuel value (trimSuffixGt (hintSplit key).2) with
        | error e => rw [hc] at h; simp at h
        | ok conv =>
          rw [hc] at h
          cases hr : processTypeHints fuel rest with
          | error e => rw [hr] at h; simp [Except.map] at h
          | ok tail =>
            rw [hr] at h
            simp only [Except.map, Except.ok.injEq] at h
            subst h
            simp [stripKey, hh, ih rest tail hr]
      · simp only [processTypeHints, hh, Bool.false_eq_true, if_false] at h
        cases hr : processTypeHints fuel rest with
        | error e => rw [hr] at h; simp [Except.map] at h
        | ok tail =>
          rw [hr] at h
          simp only [Except.map, Except.ok.injEq] at h
          subst h
          simp [stripKey, hh, ih rest tail hr]

/-- C2 witness: the amended key characterization at a concrete decode
(`age<N>` is stripped to `age`, `plain` is kept). -/
theorem c2_amended_witness :
    processTypeHints 9 [("age<N>", .str "5"), ("plain", .bool true)] =
      .ok [("age", .jnum "5"), ("plain", .bool true)] ∧
    ([("age", GoVal.jnum "5"), ("plain", GoVal.bool true)].map Prod.fst =
      [("age<N>", GoVal.str "5"), ("plain", GoVal.bool true)].map
        (fun p => stripKey p.1)) :=
  ⟨rfl, c2_amended 9 [("age<N>", .str "5"), ("plain", .bool true)]
    [("age", .jnum "5"), ("plain", .bool true)] rfl⟩

/-! ## C3 — type-conversion failures -/

def zzzInput : String := "\x7b\"x<ZZZ>\": 1\x7d"

/-- C3 counterexample: a `BOOL` hint over the string `"banana"` — which
is neither a JSON boolean nor `"true"`/`"false"` in any casing — does
NOT fail: the conversion succeeds and silently yields `false`. -/
theorem c3_counterexample :
    convertValueWithTypeHint 9 (.str "banana") "BOOL" = .ok (.bool false) ∧
    goToLower "banana" ≠ "true" ∧ goToLower "banana" ≠ "false" :=
  ⟨rfl, by decide, by decide⟩

/-- C3 amended: decoding `{"x<ZZZ>": 1}` fails with a type-conversion
error naming `ZZZ`; a `BOOL` hint fails exactly on values that are
neither a JSON boolean nor a string — every string is accepted and
yields `true` iff it equals `"true"` case-insensitively, booleans pass
through — and hint-free input never fails (failures arise only from
hinted conversions). -/
theorem c3_amended (fuel : Nat) :
    JSONToItem zzzInput =
      .error "failed to convert x with type ZZZ: unknown type hint: ZZZ" ∧
    (∀ s, convertValueWithTypeHint (fuel + 1) (.str s) "BOOL" =
      .ok (.bool (goToLower s == "true"))) ∧
    (∀ b, convertValueWithTypeHint (fuel + 1) (.bool b) "BOOL" = .ok (.bool b)) ∧
    (∀ v : GoVal, (convertValueWithTypeHint (fuel + 1) v "BOOL").isOk = true ↔
      ((∃ b, v = .bool b) ∨ (∃ s, v = .str s))) ∧
    (∀ data : List (String × GoVal), data.length < fuel →
      data.all (fun p => !hasHintShape p.1) = true →
      processTypeHints fuel data = .ok data) := by
  refine ⟨rfl, ?_, ?_, ?_, ?_⟩
  · intro s
    simp [convertValueWithTypeHint, show goToUpper "BOOL" = "BOOL" from by decide]
  · intro b
    simp [convertValueWithTypeHint, show goToUpper "BOOL" = "BOOL" from by decide]
  · intro v
    cases v <;>
      simp [convertValueWithTypeHint, show goToUpper "BOOL" = "BOOL" from by decide,
        Except.isOk, Except.toBool]
  · exact fun data h1 h2 => processTypeHints_plain fuel data h1 h2

/-- C3 witness: the amended characterization at concrete inputs. -/
theorem c3_amended_witness :
    JSONToItem zzzInput =
      .error "failed to convert x with type ZZZ: unknown type hint: ZZZ" ∧
    convertValueWithTypeHint 9 (.str "TRUE") "BOOL" = .ok (.bool true) ∧
    (convertValueWithTypeHint 9 (.float "1") "BOOL").isOk = false ∧
    processTypeHints 8 [("plain", .str "v")] = .ok [("plain", .str "v")] := by
  have h := c3_amended 8
  refine ⟨h.1, ?_, ?_, ?_⟩
  · have h2 := h.2.1 "TRUE"
    simpa using h2
  · have h4 := (h.2.2.2.1 (.float "1"))
    simp only [show (∃ b, GoVal.float "1" = .bool b) ∨ (∃ s, GoVal.float "1" = .str s) ↔ False
      from by simp] at h4
    simp [Bool.not_eq_true] at h4
    exact h4
  · exact h.2.2.2.2 [("plain", .str "v")] (by decide) (by decide)

/-! ## C1 — the encode/decode round trip -/

/-! The hint-free scalar-and-container fragment of `AttrValue`: values
built from String, Boolean and Null under List and Map.  Numbers are
excluded because Go re-reads them as `float64` and re-formats them;
Sets and Binary are excluded because encoding renders them as plain
arrays / base64 strings that decode as List / String. -/

mutual

def simpleVal : AttrValue → Bool
  | .S _ => true
  | .BOOL _ => true
  | .NULL => true
  | .L xs => simpleValList xs
  | .M kvs => simpleValKVs kvs
  | _ => false

def simpleValList : List AttrValue → Bool
  | [] => true
  | v :: vs => simpleVal v && simpleValList vs

def simpleValKVs : List (String × AttrValue) → Bool
  | [] => true
  | (_, v) :: rest => simpleVal v && simpleValKVs rest

end

/-- Top-level admissibility for the amended round trip: every top-level
attribute name is free of the `<TYPE>` hint shape (or decoding would
strip it) and every value lies in the hint-free fragment. -/
def plainItem (item : Item) : Bool :=
  item.all (fun p => !hasHintShape p.1 && simpleVal p.2)

theorem remarshal_ne_strList (w : GoVal) (xs : List String) :
    remarshal w ≠ .strList xs := by
  cases w <;> simp [remarshal]

theorem remarshal_ne_bytesList (w : GoVal) (bs : List (List Nat)) :
    remarshal w ≠ .bytesList bs := by
  cases w <;> simp [remarshal]

theorem goLookup_remarshalKVs (l : List (String × GoVal)) (k : String) :
    goLookup (remarshalKVs l) k = (goLookup l k).map remarshal := by
  induction l with
  | nil => rfl
  | cons kv rest ih =>
    obtain ⟨k', v⟩ := kv
    by_cases hk : k' == k
    · simp [remarshalKVs, goLookup, List.find?, hk]
    · simp only [remarshalKVs, goLookup, List.find?, hk] at ih ⊢
      simpa [goLookup] using ih

/-- The set-marker type assertions can never fire on remarshalled
values, so a remarshalled object always decodes as a Map. -/
theorem valueToAttr_obj_of_remarshal (l : List (String × GoVal)) :
    valueToAttr (.obj (remarshalKVs l)) =
      .M (interfaceToAttributeValue (remarshalKVs l)) := by
  simp only [valueToAttr]
  split
  · next ss hss =>
    exfalso
    rw [goLookup_remarshalKVs] at hss
    cases hw : goLookup l "__SS" with
    | none => rw [hw] at hss; simp at hss
    | some w =>
      rw [hw] at hss
      simp only [Option.map, Option.some.injEq] at hss
      exact remarshal_ne_strList w ss hss
  · split
    · next ns hns =>
      exfalso
      rw [goLookup_remarshalKVs] at hns
      cases hw : goLookup l "__NS" with
      | none => rw [hw] at hns; simp at hns
      | some w =>
        rw [hw] at hns
        simp only [Option.map, Option.some.injEq] at hns
        exact remarshal_ne_strList w ns hns
    · split
      · next bs hbs =>
        exfalso
        rw [goLookup_remarshalKVs] at hbs
        cases hw : goLookup l "__BS" with
        | none => rw [hw] at hbs; simp at hbs
        | some w =>
          rw [hw] at hbs
          simp only [Option.map, Option.some.injEq] at hbs
          exact remarshal_ne_bytesList w bs hbs
      · rfl

mutual

theorem roundTripVal : ∀ (v : AttrValue), simpleVal v = true →
    valueToAttr (remarshal (attrToInterface v)) = v
  | .S _, _ => rfl
  | .BOOL _, _ => rfl
  | .NULL, _ => rfl
  | .N _, h => Bool.noConfusion h
  | .SS _, h => Bool.noConfusion h
  | .NS _, h => Bool.noConfusion h
  | .B _, h => Bool.noConfusion h
  | .BS _, h => Bool.noConfusion h
  | .L xs, h => congrArg AttrValue.L (roundTripList xs h)
  | .M kvs, h => by
    show valueToAttr (.obj (remarshalKVs (attributeValueToInterface kvs))) = .M kvs
    rw [valueToAttr_obj_of_remarshal]
    exact congrArg AttrValue.M (roundTripKVs kvs h)

theorem roundTripList : ∀ (xs : List AttrValue), simpleValList xs = true →
    valueToAttrList (remarshalList (attrToInterfaceList xs)) = xs
  | [], _ => rfl
  | v :: vs, h => by
    have h1 : simpleVal v = true ∧ simpleValList vs = true := by
      simpa [simpleValList, Bool.and_eq_true] using h
    show valueToAttr (remarshal (attrToInterface v)) ::
        valueToAttrList (remarshalList (attrToInterfaceList vs)) = v :: vs
    rw [roundTripVal v h1.1, roundTripList vs h1.2]

theorem roundTripKVs : ∀ (kvs : List (String × AttrValue)), simpleValKVs kvs = true →
    interfaceToAttributeValue (remarshalKVs (attributeValueToInterface kvs)) = kvs
  | [], _ => rfl
  | (k, v) :: rest, h => by
    have h1 : simpleVal v = true ∧ simpleValKVs rest = true := by
      simpa [simpleValKVs, Bool.and_eq_true] using h
    show (k, valueToAttr (remarshal (attrToInterface v))) ::
        interfaceToAttributeValue (remarshalKVs (attributeValueToInterface rest)) =
        (k, v) :: rest
    rw [roundTripVal v h1.1, roundTripKVs rest h1.2]

end

theorem length_attributeValueToInterface (l : List (String × AttrValue)) :
    (attributeValueToInterface l).length = l.length := by
  induction l with
  | nil => rfl
  | cons kv rest ih => obtain ⟨k, v⟩ := kv; simp [attributeValueToInterface, ih]

theorem length_remarshalKVs (l : List (String × GoVal)) :
    (remarshalKVs l).length = l.length := by
  induction l with
  | nil => rfl
  | cons kv rest ih => obtain ⟨k, v⟩ := kv; simp [remarshalKVs, ih]

theorem plainItem_hint_free (item : Item) (h : plainItem item = true) :
    item.all (fun p => !hasHintShape p.1) = true := by
  simp only [plainItem, List.all_eq_true, Bool.and_eq_true] at h
  simp only [List.all_eq_true]
  exact fun p hp => (h p hp).1

theorem plainItem_simpleValKVs (item : Item) (h : plainItem item = true) :
    simpleValKVs item = true := by
  induction item with
  | nil => rfl
  | cons kv rest ih =>
    obtain ⟨k, v⟩ := kv
    simp only [plainItem, List.all_cons, Bool.and_eq_true] at h
    simp only [simpleValKVs, Bool.and_eq_true]
    exact ⟨h.1.2, ih h.2⟩

/-- Hint-shape of keys is preserved through encoding and remarshalling
(both preserve each key verbatim). -/
theorem remarshal_encode_hint_free (item : Item)
    (h : item.all (fun p => !hasHintShape p.1) = true) :
    (remarshalKVs (attributeValueToInterface item)).all
      (fun p => !hasHintShape p.1) = true := by
  induction item with
  | nil => rfl
  | cons kv rest ih =>
    obtain ⟨k, v⟩ := kv
    simp only [List.all_cons, Bool.and_eq_true] at h
    simp only [attributeValueToInterface, remarshalKVs, List.all_cons, Bool.and_eq_true]
    exact ⟨h.1, ih h.2⟩

/-- C1 counterexample: a StringSet does not survive the round trip —
encoding renders the set as its plain member array (no hint is ever
re-emitted), so decoding yields a List of Strings, which differs from
the original StringSet under ANY ordering of the members (the
constructors differ, so member-order-insensitive comparison cannot
rescue it). -/
theorem c1_counterexample :
    roundTrip 9 [("x", .SS ["a", "b"])] = .ok [("x", .L [.S "a", .S "b"])] ∧
    AttrValue.L [.S "a", .S "b"] ≠ .SS ["a", "b"] ∧
    AttrValue.L [.S "a", .S "b"] ≠ .SS ["b", "a"] :=
  ⟨rfl, by simp, by simp⟩

/-- C1 amended: `decode(encode(v)) == v` holds for every Record whose
top-level attribute names are free of the `<TYPE>` hint shape and whose
values are built from String, Boolean and Null under List and Map.  It
fails outside this fragment: all four Set kinds re-decode as Lists,
Binary values as base64 Strings, and Number text passes through Go's
`float64` re-formatting. -/
theorem c1_amended (fuel : Nat) (item : Item)
    (h : plainItem item = true) (hfuel : item.length < fuel) :
    roundTrip fuel item = .ok item := by
  unfold roundTrip jsonToItem
  have hkeys := remarshal_encode_hint_free item (plainItem_hint_free item h)
  have hlen : (remarshalKVs (attributeValueToInterface item)).length = item.length := by
    rw [length_remarshalKVs, length_attributeValueToInterface]
  rw [processTypeHints_plain fuel _ (by rw [hlen]; exact hfuel) hkeys]
  simp only [Except.map, Except.ok.injEq]
  exact roundTripKVs item (plainItem_simpleValKVs item h)

/-- C1 witness: the amended round trip at a concrete nested Record. -/
theorem c1_amended_witness :
    roundTrip 9 [("name", .S "bob"),
      ("meta", .M [("ok", .BOOL true), ("tags", .L [.S "x", .NULL])])] =
      .ok [("name", .S "bob"),
        ("meta", .M [("ok", .BOOL true), ("tags", .L [.S "x", .NULL])])] :=
  c1_amended 9 [("name", .S "bob"),
      ("meta", .M [("ok", .BOOL true), ("tags", .L [.S "x", .NULL])])]
    (by decide) (by decide)

/-! ## C9 — cursor and selection invariants -/

/-- cursor = 0 on an empty record list, cursor < length otherwise. -/
def cursorInv (m : Model) : Prop :=
  (m.items = [] → m.cursor = 0) ∧ (m.items ≠ [] → m.cursor < m.items.length)

/-- Every selected index is in range. -/
def selInv (m : Model) : Prop := ∀ i ∈ m.selected, i < m.items.length

/-- The three session fields the invariants concern. -/
def coreState (m : Model) : List Item × Nat × List Nat :=
  (m.items, m.cursor, m.selected)

/-- The one message kind that replaces the record list without clearing
the selection. -/
def isItemFetchSuccess : Msg → Bool
  | .itemFetchedForEdit (some _) none => true
  | _ => false

theorem coreState_fields {m m' : Model} (h : coreState m' = coreState m) :
    m'.items = m.items ∧ m'.cursor = m.cursor ∧ m'.selected = m.selected := by
  simpa [coreState, Prod.ext_iff] using h

theorem cursorInv_of_core {m m' : Model} (h : coreState m' = coreState m)
    (hc : cursorInv m) : cursorInv m' := by
  obtain ⟨h1, h2, h3⟩ := coreState_fields h
  unfold cursorInv at hc ⊢
  rw [h1, h2]
  exact hc

theorem selInv_of_core {m m' : Model} (h : coreState m' = coreState m)
    (hs : selInv m) : selInv m' := by
  obtain ⟨h1, h2, h3⟩ := coreState_fields h
  unfold selInv at hs ⊢
  rw [h1, h3]
  exact hs

theorem core_setError (m : Model) (e : String) : coreState (setError m e) = coreState m := by
  simp only [setError]
  split_ifs <;> rfl

theorem core_openEditor (m : Model) (c : String) :
    coreState (openEditor m c).1 = coreState m := rfl

theorem core_editCurrentItem (m : Model) :
    coreState (editCurrentItem m).1 = coreState m := by
  simp only [editCurrentItem]
  split_ifs <;> rfl

theorem core_putNewItem (m : Model) :
    coreState (putNewItem m).1 = coreState m := by
  simp only [putNewItem, openEditor]
  split_ifs <;> rfl

theorem core_executeQuery (m : Model) (args : List String) :
    coreState (executeQuery m args).1 = coreState m := by
  simp only [executeQuery]
  split_ifs <;> first | rfl | (split <;> rfl)

theorem core_executeGet (m : Model) (args : List String) :
    coreState (executeGet m args).1 = coreState m := by
  simp only [executeGet]
  split_ifs <;> rfl

theorem core_executeUpdate (m : Model) (args : List String) :
    coreState (executeUpdate m args).1 = coreState m := by
  simp only [executeUpdate]
  split_ifs <;> rfl

theorem core_executeDelete (m : Model) (args : List String) :
    coreState (executeDelete m args).1 = coreState m := by
  simp only [executeDelete]
  split_ifs <;> rfl

/-- No branch of the command interpreter touches items, cursor or
selection (all its work is deferred to commands). -/
theorem core_executeCommand (m : Model) (c : String) :
    coreState (executeCommand m c).1 = coreState m := by
  delta executeCommand
  by_cases h1 : goTrimSpace c = ":q" ∨ goTrimSpace c = ":quit" ∨
      goTrimSpace c = "/q" ∨ goTrimSpace c = "\\q"
  · rw [if_pos h1]
  rw [if_neg h1]
  by_cases h2 : goTrimSpace c = ":?" ∨ goTrimSpace c = ":help" ∨
      goTrimSpace c = "/?" ∨ goTrimSpace c = "/help"
  · rw [if_pos h2]
    rfl
  rw [if_neg h2]
  by_cases h3 : goTrimSpace c = "/err"
  · rw [if_pos h3]
    split_ifs <;> rfl
  rw [if_neg h3]
  by_cases h4 : goTrimSpace c = "/mlrd"
  · rw [if_pos h4]
    rfl
  rw [if_neg h4]
  cases hf : goFields (goTrimSpace c) with
  | nil => rfl
  | cons first args =>
    simp only []
    by_cases h5 : goToLower first = "/scan"
    · rw [if_pos h5]
      split_ifs <;> first | rfl | apply core_setError
    rw [if_neg h5]
    by_cases h6 : goToLower first = "/query"
    · rw [if_pos h6]
      split_ifs <;> first | rfl | apply core_executeQuery
    rw [if_neg h6]
    by_cases h7 : goToLower first = "/get"
    · rw [if_pos h7]
      split_ifs <;> first | rfl | apply core_executeGet
    rw [if_neg h7]
    by_cases h8 : goToLower first = "/put"
    · rw [if_pos h8]
      apply core_putNewItem
    rw [if_neg h8]
    by_cases h9 : goToLower first = "/update"
    · rw [if_pos h9]
      split_ifs <;> first | rfl | apply core_executeUpdate
    rw [if_neg h9]
    by_cases h10 : goToLower first = "/delete" ∨ goToLower first = "/rm"
    · rw [if_pos h10]
      split_ifs <;> first | rfl | apply core_executeDelete
    rw [if_neg h10]
    apply core_setError

theorem inv_of_core {m m' : Model} (h : coreState m' = coreState m)
    (hc : cursorInv m) (hs : selInv m) : cursorInv m' ∧ selInv m' :=
  ⟨cursorInv_of_core h hc, selInv_of_core h hs⟩

theorem mem_selInsert {s : List Nat} {c i : Nat} (h : i ∈ selInsert s c) :
    i = c ∨ i ∈ s := by
  unfold selInsert at h
  split_ifs at h with hc
  · exact Or.inr h
  · simpa using h

theorem mem_selRemove {s : List Nat} {c i : Nat} (h : i ∈ selRemove s c) : i ∈ s :=
  (List.mem_filter.mp h).1

/-- `coreState` is untouched by every `Normal`-mode key except the
cursor/selection movements themselves. -/
theorem inv_handleNormalKey (m : Model) (k : String)
    (hc : cursorInv m) (hs : selInv m) :
    cursorInv (handleNormalKey m k).1 ∧ selInv (handleNormalKey m k).1 := by
  obtain ⟨hc1, hc2⟩ := hc
  by_cases h1 : k = "ctrl+c"
  · subst h1
    refine inv_of_core ?_ ⟨hc1, hc2⟩ hs
    simp [handleNormalKey]
  by_cases h2 : k = "q"
  · subst h2
    refine inv_of_core ?_ ⟨hc1, hc2⟩ hs
    simp [handleNormalKey, coreState, apply_ite]
  by_cases h3 : k = ":"
  · subst h3
    refine inv_of_core ?_ ⟨hc1, hc2⟩ hs
    simp [handleNormalKey, coreState, apply_ite]
  by_cases h4 : k = "/"
  · subst h4
    refine inv_of_core ?_ ⟨hc1, hc2⟩ hs
    simp [handleNormalKey, coreState, apply_ite]
  by_cases h5 : k = "up" ∨ k = "k"
  · have hred : handleNormalKey m k =
        ({ (if m.cursor > 0 then { m with cursor := m.cursor - 1 } else m) with
            keyBuffer := "" }, none) := by
      rcases h5 with h | h <;> subst h <;> simp [handleNormalKey]
    rw [hred]
    unfold cursorInv selInv
    refine ⟨⟨fun he => ?_, fun hne => ?_⟩, fun i hmem => ?_⟩
    · simp only [apply_ite, ite_self] at he ⊢
      have := hc1 he
      split_ifs <;> omega
    · simp only [apply_ite, ite_self] at hne ⊢
      have := hc2 hne
      split_ifs <;> omega
    · simp only [apply_ite, ite_self] at hmem ⊢
      exact hs i hmem
  by_cases h6 : k = "down" ∨ k = "j"
  · have hred : handleNormalKey m k =
        ({ (if m.cursor < m.items.length - 1 then { m with cursor := m.cursor + 1 } else m) with
            keyBuffer := "" }, none) := by
      rcases h6 with h | h <;> subst h <;> simp [handleNormalKey]
    rw [hred]
    unfold cursorInv selInv
    refine ⟨⟨fun he => ?_, fun hne => ?_⟩, fun i hmem => ?_⟩
    · simp only [apply_ite, ite_self] at he ⊢
      have := hc1 he
      have h0 : m.items.length = 0 := by simp [he]
      split_ifs <;> omega
    · simp only [apply_ite, ite_self] at hne ⊢
      have := hc2 hne
      split_ifs <;> omega
    · simp only [apply_ite, ite_self] at hmem ⊢
      exact hs i hmem
  by_cases h7 : k = "enter"
  · subst h7
    by_cases hin : m.input = ""
    · have hred : handleNormalKey m "enter" =
          ({ (if m.items.length > 0 ∧ m.cursor < m.items.length then
              { m with viewContent := ItemToPrettyJSON (m.items.getD m.cursor []),
                       mode := Mode.itemView } else m) with keyBuffer := "" }, none) := by
        simp [handleNormalKey, hin]
      rw [hred]
      refine inv_of_core ?_ ⟨hc1, hc2⟩ hs
      simp [coreState, apply_ite]
    · have hred : handleNormalKey m "enter" =
          executeCommand { m with input := "", keyBuffer := "" } m.input := by
        simp [handleNormalKey, hin]
      rw [hred]
      refine inv_of_core ?_ ⟨hc1, hc2⟩ hs
      rw [core_executeCommand]
      rfl
  by_cases h8 : k = " "
  · have hred : handleNormalKey m k =
        ({ (if m.items.length > 0 then
            (if m.selected.contains m.cursor then
              { m with selected := selRemove m.selected m.cursor }
            else
              { m with selected := selInsert m.selected m.cursor }) else m) with
            keyBuffer := "" }, none) := by
      subst h8
      simp [handleNormalKey]
    rw [hred]
    unfold cursorInv selInv
    refine ⟨⟨fun he => ?_, fun hne => ?_⟩, fun i hmem => ?_⟩
    · simp only [apply_ite, ite_self] at he ⊢
      exact hc1 he
    · simp only [apply_ite, ite_self] at hne ⊢
      exact hc2 hne
    · simp only [apply_ite, ite_self] at hmem ⊢
      split_ifs at hmem with hgt hsel
      · exact hs i (mem_selRemove hmem)
      · rcases mem_selInsert hmem with h | h
        · subst h
          refine hc2 (fun he => ?_)
          rw [he] at hgt
          simp at hgt
        · exact hs i h
      · exact hs i hmem
  by_cases h9 : k = "e"
  · subst h9
    have : coreState (handleNormalKey m "e").1 = coreState m := by
      simp only [handleNormalKey]
      split_ifs
      · exact core_editCurrentItem m
      · rfl
    exact inv_of_core this ⟨hc1, hc2⟩ hs
  by_cases h10 : k = "d"
  · subst h10
    refine inv_of_core ?_ ⟨hc1, hc2⟩ hs
    simp [handleNormalKey, coreState, apply_ite]
  by_cases h11 : k = "t"
  · subst h11
    refine inv_of_core ?_ ⟨hc1, hc2⟩ hs
    simp [handleNormalKey, coreState]
  by_cases h12 : k = "i" ∨ k = "a"
  · have hred : handleNormalKey m k = putNewItem { m with keyBuffer := "" } := by
      rcases h12 with h | h <;> subst h <;> simp [handleNormalKey]
    rw [hred]
    exact inv_of_core (core_putNewItem _) ⟨hc1, hc2⟩ hs
  by_cases h13 : k = "?"
  · subst h13
    refine inv_of_core ?_ ⟨hc1, hc2⟩ hs
    simp [handleNormalKey, coreState]
  by_cases h14 : k = "esc"
  · subst h14
    refine inv_of_core ?_ ⟨hc1, hc2⟩ hs
    simp [handleNormalKey, coreState]
  by_cases h15 : k = "g"
  · subst h15
    have hred : handleNormalKey m "g" =
        (if m.keyBuffer = "g" then ({ m with cursor := 0, keyBuffer := "" }, none)
         else ({ m with keyBuffer := "g" }, none)) := by
      simp [handleNormalKey]
    rw [hred]
    unfold cursorInv selInv
    split_ifs
    · exact ⟨⟨fun _ => rfl, fun hne => List.length_pos.mpr hne⟩, hs⟩
    · exact ⟨⟨hc1, hc2⟩, hs⟩
  by_cases h16 : k = "G"
  · subst h16
    have hred : handleNormalKey m "G" =
        ({ m with cursor := m.items.length - 1, keyBuffer := "" }, none) := by
      simp [handleNormalKey]
    rw [hred]
    unfold cursorInv selInv
    refine ⟨⟨fun he => ?_, fun hne => ?_⟩, hs⟩
    · simp only [] at he
      show m.items.length - 1 = 0
      simp [he]
    · simp only [] at hne
      show m.items.length - 1 < m.items.length
      have : m.items.length ≠ 0 := fun h0 => hne (List.length_eq_zero.mp h0)
      omega
  · have hred : handleNormalKey m k = ({ m with keyBuffer := "" }, none) := by
      have h5a : ¬(k = "up") := fun h => h5 (Or.inl h)
      have h5b : ¬(k = "k") := fun h => h5 (Or.inr h)
      have h6a : ¬(k = "down") := fun h => h6 (Or.inl h)
      have h6b : ¬(k = "j") := fun h => h6 (Or.inr h)
      have h12a : ¬(k = "i") := fun h => h12 (Or.inl h)
      have h12b : ¬(k = "a") := fun h => h12 (Or.inr h)
      simp [handleNormalKey, h1, h2, h3, h4, h5a, h5b, h6a, h6b, h7, h8, h9, h10,
        h11, h12a, h12b, h13, h14, h15, h16]
    rw [hred]
    exact ⟨⟨hc1, hc2⟩, hs⟩

theorem core_handleCommandMode (m : Model) (k : String) :
    coreState (handleCommandMode m k).1 = coreState m := by
  unfold handleCommandMode
  split_ifs
  · rfl
  · rw [core_executeCommand]
    rfl
  · rfl

theorem core_handleTableSelectMode (m : Model) (k : String) :
    coreState (handleTableSelectMode m k).1 = coreState m := by
  unfold handleTableSelectMode
  dsimp only
  split_ifs <;> rfl

theorem core_handleItemViewMode (m : Model) (k : String) :
    coreState (handleItemViewMode m k).1 = coreState m := by
  unfold handleItemViewMode
  split_ifs
  · rfl
  · rw [core_editCurrentItem]
    rfl
  · rfl

theorem core_handleConfirmDeleteMode (m : Model) (k : String) :
    coreState (handleConfirmDeleteMode m k).1 = coreState m := by
  unfold handleConfirmDeleteMode
  split_ifs <;> rfl

/-- Both invariants are preserved by every keystroke in every mode. -/
theorem inv_handleKeyPress (m : Model) (k : String)
    (hc : cursorInv m) (hs : selInv m) :
    cursorInv (handleKeyPress m k).1 ∧ selInv (handleKeyPress m k).1 := by
  unfold handleKeyPress
  cases hm : m.mode with
  | normal => exact inv_handleNormalKey m k hc hs
  | command => exact inv_of_core (core_handleCommandMode m k) hc hs
  | tableSelect => exact inv_of_core (core_handleTableSelectMode m k) hc hs
  | itemView => exact inv_of_core (core_handleItemViewMode m k) hc hs
  | confirmDelete => exact inv_of_core (core_handleConfirmDeleteMode m k) hc hs
  | help =>
    refine inv_of_core ?_ hc hs
    split_ifs <;> rfl
  | errorView =>
    refine inv_of_core ?_ hc hs
    split_ifs <;> rfl

theorem core_tablesLoaded_ok (m : Model) (ts : List TableInfo) :
    coreState (Update m (.tablesLoaded ts none)).1 = coreState m := by
  simp only [Update]
  repeat' split
  all_goals rfl

/-- C9 counterexample: with three records loaded and index 2 selected, a
successful item-fetched-for-edit replaces the record list with the
single fetched item and resets the cursor, but does NOT clear the
selection — the stale index 2 now violates `selected index <
len(records)`. -/
theorem c9_counterexample :
    ((Update { NewModel "" with items := [recNo 1, recNo 2, recNo 3], selected := [2] }
        (.itemFetchedForEdit (some (recNo 9)) none)).1.items.length = 1) ∧
    ((Update { NewModel "" with items := [recNo 1, recNo 2, recNo 3], selected := [2] }
        (.itemFetchedForEdit (some (recNo 9)) none)).1.selected = [2]) ∧
    ¬ selInv (Update { NewModel "" with items := [recNo 1, recNo 2, recNo 3], selected := [2] }
        (.itemFetchedForEdit (some (recNo 9)) none)).1 := by
  refine ⟨rfl, rfl, ?_⟩
  intro h
  have h2 := h 2 (by
    rw [show (Update { NewModel "" with items := [recNo 1, recNo 2, recNo 3], selected := [2] }
        (.itemFetchedForEdit (some (recNo 9)) none)).1.selected = [2] from rfl]
    simp)
  rw [show (Update { NewModel "" with items := [recNo 1, recNo 2, recNo 3], selected := [2] }
      (.itemFetchedForEdit (some (recNo 9)) none)).1.items.length = 1 from rfl] at h2
  omega

/-- C9 amended: after every state-machine step the cursor invariant
holds — cursor = 0 on an empty record list, cursor < len(records)
otherwise — and the selection invariant (every selected index <
len(records)) is preserved by every step EXCEPT a successful
item-fetched-for-edit, which replaces the record list with the single
fetched item and resets the cursor but leaves the selection uncleared
(an items-loaded result does clear it). -/
theorem c9_amended (m : Model) (msg : Msg) (hc : cursorInv m) (hs : selInv m) :
    cursorInv (Update m msg).1 ∧
    (isItemFetchSuccess msg = false → selInv (Update m msg).1) ∧
    (∀ its nm, (Update m (.itemsLoaded its none nm)).1.selected = [] ∧
               (Update m (.itemsLoaded its none nm)).1.cursor = 0) ∧
    (∀ it, (Update m (.itemFetchedForEdit (some it) none)).1.selected = m.selected ∧
           (Update m (.itemFetchedForEdit (some it) none)).1.items = [it]) := by
  have hextra1 : ∀ its nm, (Update m (.itemsLoaded its none nm)).1.selected = [] ∧
      (Update m (.itemsLoaded its none nm)).1.cursor = 0 := by
    intro its nm
    simp only [Update]
    split_ifs <;> exact ⟨rfl, rfl⟩
  have hextra2 : ∀ it, (Update m (.itemFetchedForEdit (some it) none)).1.selected = m.selected ∧
      (Update m (.itemFetchedForEdit (some it) none)).1.items = [it] := by
    intro it
    exact ⟨rfl, rfl⟩
  refine ⟨?_, ?_, hextra1, hextra2⟩ <;>
  · cases msg with
    | windowSize w h =>
      first
        | exact (inv_of_core rfl hc hs).1
        | exact fun _ => (inv_of_core rfl hc hs).2
    | tablesLoaded ts err =>
      cases err with
      | some e =>
        first
          | exact (inv_of_core (core_setError m e) hc hs).1
          | exact fun _ => (inv_of_core (core_setError m e) hc hs).2
      | none =>
        first
          | exact (inv_of_core (core_tablesLoaded_ok m ts) hc hs).1
          | exact fun _ => (inv_of_core (core_tablesLoaded_ok m ts) hc hs).2
    | itemsLoaded its err nm =>
      cases err with
      | some e =>
        first
          | exact (inv_of_core (core_setError m e) hc hs).1
          | exact fun _ => (inv_of_core (core_setError m e) hc hs).2
      | none =>
        have hcore : cursorInv (Update m (.itemsLoaded its none nm)).1 ∧
            selInv (Update m (.itemsLoaded its none nm)).1 := by
          have h1 := (hextra1 its nm).1
          have h2 := (hextra1 its nm).2
          have h3 : (Update m (.itemsLoaded its none nm)).1.items = its := by
            simp only [Update]
            split_ifs <;> rfl
          constructor
          · exact ⟨fun _ => h2, fun hne => by rw [h2, h3]; exact List.length_pos.mpr (h3 ▸ hne)⟩
          · intro i hi
            rw [h1] at hi
            simp at hi
        first
          | exact hcore.1
          | exact fun _ => hcore.2
    | operationDone st err =>
      cases err with
      | some e =>
        first
          | exact (inv_of_core (core_setError m e) hc hs).1
          | exact fun _ => (inv_of_core (core_setError m e) hc hs).2
      | none =>
        have hcore : coreState (Update m (.operationDone st none)).1 = coreState m := by
          simp only [Update]
          split_ifs <;> rfl
        first
          | exact (inv_of_core hcore hc hs).1
          | exact fun _ => (inv_of_core hcore hc hs).2
    | editorFinished c o err =>
      cases err with
      | some e =>
        first
          | exact (inv_of_core (core_setError m e) hc hs).1
          | exact fun _ => (inv_of_core (core_setError m e) hc hs).2
      | none =>
        have hcore : coreState (Update m (.editorFinished c o none)).1 = coreState m := by
          simp only [Update]
          split_ifs <;> rfl
        first
          | exact (inv_of_core hcore hc hs).1
          | exact fun _ => (inv_of_core hcore hc hs).2
    | itemFetchedForEdit it err =>
      cases err with
      | some e =>
        first
          | exact (inv_of_core rfl hc hs).1
          | exact fun _ => (inv_of_core rfl hc hs).2
      | none =>
        cases it with
        | none =>
          first
            | exact (inv_of_core rfl hc hs).1
            | exact fun _ => (inv_of_core rfl hc hs).2
        | some itv =>
          have hcur : cursorInv (Update m (.itemFetchedForEdit (some itv) none)).1 := by
            have hcore := core_editCurrentItem { m with items := [itv], cursor := 0 }
            exact cursorInv_of_core hcore
              ⟨fun h => by simp at h, fun _ => by simp⟩
          first
            | exact hcur
            | exact fun hfalse => by simp [isItemFetchSuccess] at hfalse
    | key k =>
      first
        | exact (inv_handleKeyPress m k hc hs).1
        | exact fun _ => (inv_handleKeyPress m k hc hs).2

/-- C9 witness: the amended preservation applied at a concrete state and
step (a `j` keystroke on a two-record list with the second row
selected). -/
theorem c9_amended_witness :
    cursorInv (Update { NewModel "" with items := [recNo 1, recNo 2], selected := [1] }
      (.key "j")).1 ∧
    (isItemFetchSuccess (.key "j") = false →
      selInv (Update { NewModel "" with items := [recNo 1, recNo 2], selected := [1] }
        (.key "j")).1) ∧
    (∀ its nm,
      (Update { NewModel "" with items := [recNo 1, recNo 2], selected := [1] }
        (.itemsLoaded its none nm)).1.selected = [] ∧
      (Update { NewModel "" with items := [recNo 1, recNo 2], selected := [1] }
        (.itemsLoaded its none nm)).1.cursor = 0) ∧
    (∀ it,
      (Update { NewModel "" with items := [recNo 1, recNo 2], selected := [1] }
        (.itemFetchedForEdit (some it) none)).1.selected =
          ({ NewModel "" with items := [recNo 1, recNo 2], selected := [1] } : Model).selected ∧
      (Update { NewModel "" with items := [recNo 1, recNo 2], selected := [1] }
        (.itemFetchedForEdit (some it) none)).1.items = [it]) :=
  c9_amended { NewModel "" with items := [recNo 1, recNo 2], selected := [1] } (.key "j")
    (by exact ⟨fun h => by simp at h, fun _ => by exact (by decide : (0:Nat) < 2)⟩)
    (by intro i hi; simp at hi; subst hi; exact (by decide : (1:Nat) < 2))

end Dui
